import Mathlib

/-!
Verification of the kilo-style terminal text editor in src/kilo.c.

The editor state (struct editorConfig E) and its operations are embedded
shallowly: bytes are Nat (0..255), C int fields are Int, rows are lists.
The C arrays chars / render / hl are lists of bytes; size and rsize are
the list lengths (the C code keeps them equal to the lengths at all
times).  Key codes use the values of enum editorKey; bytes read from the
terminal are modelled as unsigned values (the C code reads into a signed
char and widens to int, which flips the sign of bytes above 127, but the
byte stored back into a row by editorInsertChar is the original byte, so
the unsigned model agrees with the code observably).
-/

namespace Kilo

/-- KILO_TAB_STOP from kilo.c. -/
def KILO_TAB_STOP : Nat := 8

/-- KILO_QUIT_TIMES from kilo.c. -/
def KILO_QUIT_TIMES : Int := 2

-- enum editorKey (kilo.c): BACKSPACE = 127, ARROW_LEFT = 1000, and the
-- following constants incrementing from there.
def BACKSPACE : Nat := 127
def ARROW_LEFT : Nat := 1000
def ARROW_RIGHT : Nat := 1001
def ARROW_UP : Nat := 1002
def ARROW_DOWN : Nat := 1003
def DEL_KEY : Nat := 1004
def HOME_KEY : Nat := 1005
def END_KEY : Nat := 1006
def PAGE_UP : Nat := 1007
def PAGE_DOWN : Nat := 1008

-- enum editorHighlight (kilo.c).
def HL_NORMAL : Nat := 0
def HL_COMMENT : Nat := 1
def HL_KEYWORD1 : Nat := 2
def HL_KEYWORD2 : Nat := 3
def HL_STRING : Nat := 4
def HL_NUMBER : Nat := 5
def HL_MATCH : Nat := 6

/-- HL_HIGHLIGHT_NUMBERS flag bit. -/
def HL_HIGHLIGHT_NUMBERS : Nat := 1

/-- HL_HIGHLIGHT_STRINGS flag bit. -/
def HL_HIGHLIGHT_STRINGS : Nat := 2

/-- The bytes of a string literal of the C source, as a list of Nat. -/
def strBytes (s : String) : List Nat := s.toList.map Char.toNat

/-- memset(&l[s], v, len): overwrite the entries of l at positions
s, s+1, ..., s+len-1 with v. -/
def setRange (l : List Nat) (s len v : Nat) : List Nat :=
  (List.range l.length).zipWith (fun i c => if s ≤ i ∧ i < s + len then v else c) l

/-- memcpy(dst, src, n) for byte lists: the first n bytes of src followed
by the tail of dst. -/
def memcpyList (dst src : List Nat) (n : Nat) : List Nat :=
  src.take n ++ dst.drop n

/-- strstr(hay, query) as the index of the first occurrence of query as a
contiguous sublist of hay (None when there is none; 0 for an empty query,
as in C). -/
def strstrIdx (hay needle : List Nat) : Option Nat :=
  (List.range (hay.length + 1)).find? (fun i => needle.isPrefixOf (hay.drop i))

/-- strrchr(l, c) as the suffix of l starting at the last occurrence of c. -/
def strrchrSuffix : List Nat → Nat → Option (List Nat)
  | [], _ => none
  | x :: rest, c =>
    match strrchrSuffix rest c with
    | some s => some s
    | none => if x = c then some (x :: rest) else none

/-- isspace() of C for the bytes the editor handles:
space, \t, \n, \v, \f, \r. -/
def isspace (c : Nat) : Bool :=
  c = 32 ∨ c = 9 ∨ c = 10 ∨ c = 11 ∨ c = 12 ∨ c = 13

/-- isdigit() of C. -/
def isdigit (c : Nat) : Bool := 48 ≤ c ∧ c ≤ 57

/-- iscntrl() of C: bytes 0..31 and 127. -/
def iscntrl (c : Nat) : Bool := c < 32 ∨ c = 127

/-- is_separator (kilo.c): whitespace, the NUL byte, or one of the bytes
of the C string literal of separators. -/
def is_separator (c : Nat) : Bool :=
  isspace c || c = 0 || (strBytes (",.()+-/*=~%<>[]")).contains c

/-- struct editorSyntax (kilo.c).  The field E.syntax is modelled by the
name syn throughout this file. -/
structure EditorSyntax where
  filetype : String
  filematch : List (List Nat)
  keywords : List (List Nat)
  singleline_comment_start : List Nat
  flags : Nat
deriving Repr, DecidableEq

/-- C_HL_extensions (kilo.c). -/
def C_HL_extensions : List (List Nat) :=
  [strBytes (".c"), strBytes (".h"), strBytes (".cpp")]

/-- C_HL_keywords (kilo.c): primary keywords, then the secondary keywords
carrying a trailing pipe marker. -/
def C_HL_keywords : List (List Nat) :=
  [strBytes ("switch"), strBytes ("if"), strBytes ("while"), strBytes ("for"),
   strBytes ("break"), strBytes ("continue"), strBytes ("return"), strBytes ("else"),
   strBytes ("struct"), strBytes ("union"), strBytes ("typedef"), strBytes ("static"),
   strBytes ("enum"), strBytes ("class"), strBytes ("case"),
   strBytes ("int|"), strBytes ("long|"), strBytes ("double|"), strBytes ("float|"),
   strBytes ("char|"), strBytes ("unsigned|"), strBytes ("signed|"), strBytes ("void|")]

/-- HLDB (kilo.c): the one built-in C-like filetype. -/
def HLDB : List EditorSyntax :=
  [{ filetype := "c",
     filematch := C_HL_extensions,
     keywords := C_HL_keywords,
     singleline_comment_start := strBytes ("//"),
     flags := HL_HIGHLIGHT_NUMBERS ||| HL_HIGHLIGHT_STRINGS }]

/-- strncmp(&render[i], s, s.length) = 0: s occurs verbatim in render at
position i.  render is NUL-terminated in C; a comparison running past the
end fails there exactly as the shorter take fails to equal s here. -/
def matchesAt (render : List Nat) (i : Nat) (s : List Nat) : Bool :=
  (render.drop i).take s.length = s

/-- Reading render[j] where render is NUL-terminated: past the end the
terminating NUL (0) is read. -/
def renderAt (render : List Nat) (j : Nat) : Nat := render.getD j 0

/-- The inner keyword loop of editorUpdateSyntax: the first keyword of the
list matching at position i of render with a separator after it, returned
as (klen, kw2) where klen excludes a trailing pipe and kw2 says the pipe
was present (a secondary keyword). -/
def keywordScan (render : List Nat) (i : Nat) : List (List Nat) → Option (Nat × Bool)
  | [] => none
  | kw :: rest =>
    let kw2 : Bool := kw.getLast? = some 124
    let kwBody := if kw2 then kw.dropLast else kw
    if matchesAt render i kwBody ∧ is_separator (renderAt render (i + kwBody.length)) then
      some (kwBody.length, kw2)
    else
      keywordScan render i rest

/-- The while loop of editorUpdateSyntax.  i is the position, prev_sep and
in_string the two flags, hl the highlight array built so far (length
render.length throughout).  fuel bounds the iteration count; the C loop
advances i by at least one per iteration, so fuel = render.length suffices. -/
def syntaxLoop (syn : EditorSyntax) (render : List Nat) :
    Nat → Nat → Bool → Nat → List Nat → List Nat
  | 0, _, _, _, hl => hl
  | fuel + 1, i, prev_sep, in_string, hl =>
    if i < render.length then
      let c := renderAt render i
      let prev_hl := if i > 0 then hl.getD (i - 1) HL_NORMAL else HL_NORMAL
      let scs := syn.singleline_comment_start
      -- single-line comment: memset the rest of the row and break
      if scs.length ≠ 0 ∧ in_string = 0 ∧ matchesAt render i scs then
        setRange hl i (render.length - i) HL_COMMENT
      else if syn.flags &&& HL_HIGHLIGHT_STRINGS ≠ 0 ∧ in_string ≠ 0 then
        -- inside a string: highlight, handle a backslash escape
        let hl1 := hl.set i HL_STRING
        if c = 92 ∧ i + 1 < render.length then
          syntaxLoop syn render fuel (i + 2) prev_sep in_string (hl1.set (i + 1) HL_STRING)
        else
          let in_string1 := if c = in_string then 0 else in_string
          syntaxLoop syn render fuel (i + 1) true in_string1 hl1
      else if syn.flags &&& HL_HIGHLIGHT_STRINGS ≠ 0 ∧ (c = 34 ∨ c = 39) then
        -- opening quote (double or single)
        syntaxLoop syn render fuel (i + 1) prev_sep c (hl.set i HL_STRING)
      else if syn.flags &&& HL_HIGHLIGHT_NUMBERS ≠ 0 ∧
          ((isdigit c ∧ (prev_sep ∨ prev_hl = HL_NUMBER)) ∨ (c = 46 ∧ prev_hl = HL_NUMBER)) then
        syntaxLoop syn render fuel (i + 1) false in_string (hl.set i HL_NUMBER)
      else if prev_sep then
        match keywordScan render i syn.keywords with
        | some (klen, kw2) =>
          syntaxLoop syn render fuel (i + klen) false in_string
            (setRange hl i klen (if kw2 then HL_KEYWORD2 else HL_KEYWORD1))
        | none =>
          syntaxLoop syn render fuel (i + 1) (is_separator c) in_string hl
      else
        syntaxLoop syn render fuel (i + 1) (is_separator c) in_string hl
    else hl

/-- editorUpdateSyntax (kilo.c): realloc hl to rsize bytes, memset it to
HL_NORMAL, return if E.syntax is NULL, else run the highlighting loop
(prev_sep starts true, in_string starts 0). -/
def editorUpdateSyntax (syn : Option EditorSyntax) (render : List Nat) : List Nat :=
  let base := List.replicate render.length HL_NORMAL
  match syn with
  | none => base
  | some s => syntaxLoop s render render.length 0 true 0 base

/-- The render-building loop of editorUpdateRow: each tab expands to
spaces up to the next multiple of KILO_TAB_STOP (the C code appends one
space and then spaces while idx % KILO_TAB_STOP ≠ 0, which appends
KILO_TAB_STOP - idx % KILO_TAB_STOP spaces in total); any other byte is
copied. idx is the number of render bytes emitted so far. -/
def renderLoop : List Nat → Nat → List Nat
  | [], _ => []
  | c :: rest, idx =>
    if c = 9 then
      let n := KILO_TAB_STOP - idx % KILO_TAB_STOP
      List.replicate n 32 ++ renderLoop rest (idx + n)
    else
      c :: renderLoop rest (idx + 1)

/-- typedef struct erow (kilo.c): chars, render, hl; size and rsize are
the lengths of chars and render. -/
structure Erow where
  chars : List Nat
  render : List Nat
  hl : List Nat
deriving Repr, DecidableEq

/-- editorUpdateRow (kilo.c): rebuild render from chars (tab expansion)
and then call editorUpdateSyntax to rebuild hl from render. -/
def editorUpdateRow (syn : Option EditorSyntax) (chars : List Nat) : Erow :=
  let render := renderLoop chars 0
  { chars := chars, render := render, hl := editorUpdateSyntax syn render }

/-- struct editorConfig (kilo.c).  The C field E.row (the row array) is
the list row; numrows is its length.  E.syntax is the field syn.
orig_termios, the screen buffer and statusmsg_time are not modelled. -/
structure EState where
  cx : Int
  cy : Int
  rx : Int
  rowoff : Int
  coloff : Int
  screenrows : Int
  screencols : Int
  row : List Erow
  dirty : Int
  filename : Option (List Nat)
  statusmsg : String
  syn : Option EditorSyntax
deriving Repr, DecidableEq

/-- E.numrows: kept equal to the length of the row array by the code. -/
def numrows (st : EState) : Int := st.row.length

/-- The default row used to read E.row[i] at an index the C code never
uses out of range. -/
def defaultRow : Erow := { chars := [], render := [], hl := [] }

/-- E.row[i] for an int index (in-range accesses only in reachable code). -/
def rowAt (rows : List Erow) (i : Int) : Erow := rows.getD i.toNat defaultRow

/-- editorInsertRow (kilo.c): validate at, shift the tail up, construct
the row from the given bytes via editorUpdateRow, bump numrows and dirty. -/
def editorInsertRow (st : EState) (at_ : Int) (s : List Nat) : EState :=
  if at_ < 0 ∨ numrows st < at_ then st
  else
    { st with
      row := st.row.take at_.toNat ++ editorUpdateRow st.syn s :: st.row.drop at_.toNat,
      dirty := st.dirty + 1 }

/-- editorDelRow (kilo.c): validate at, free the row, shift the tail down,
decrement numrows, bump dirty. -/
def editorDelRow (st : EState) (at_ : Int) : EState :=
  if at_ < 0 ∨ numrows st ≤ at_ then st
  else { st with row := st.row.eraseIdx at_.toNat, dirty := st.dirty + 1 }

/-- editorRowInsertChar (kilo.c): clamp at into [0, size], insert the byte,
recompute render and hl via editorUpdateRow.  The E.dirty increment the C
function performs is returned as the second component for the state-level
caller to apply. -/
def editorRowInsertChar (syn : Option EditorSyntax) (row : Erow) (at_ : Int) (c : Nat) :
    Erow × Int :=
  let a := if at_ < 0 ∨ (row.chars.length : Int) < at_ then row.chars.length else at_.toNat
  (editorUpdateRow syn (row.chars.take a ++ c :: row.chars.drop a), 1)

/-- editorRowDeleteChar (kilo.c): reject an out-of-range at, else remove
the byte and recompute via editorUpdateRow.  The dirty increment (performed
only when a byte is removed) is the second component. -/
def editorRowDeleteChar (syn : Option EditorSyntax) (row : Erow) (at_ : Int) : Erow × Int :=
  if at_ < 0 ∨ (row.chars.length : Int) ≤ at_ then (row, 0)
  else (editorUpdateRow syn (row.chars.take at_.toNat ++ row.chars.drop (at_.toNat + 1)), 1)

/-- editorRowAppendString (kilo.c): concatenate the bytes onto the row and
recompute via editorUpdateRow; the dirty increment is the second component. -/
def editorRowAppendString (syn : Option EditorSyntax) (row : Erow) (s : List Nat) :
    Erow × Int :=
  (editorUpdateRow syn (row.chars ++ s), 1)

/-- editorInsertChar (kilo.c): on the virtual line past the end of the
file first append an empty row, then insert the byte at the cursor via
editorRowInsertChar and advance the cursor. -/
def editorInsertChar (st : EState) (c : Nat) : EState :=
  let st1 := if st.cy = numrows st then editorInsertRow st (numrows st) [] else st
  let rc := editorRowInsertChar st1.syn (rowAt st1.row st1.cy) st1.cx c
  { st1 with
    row := st1.row.set st1.cy.toNat rc.1,
    dirty := st1.dirty + rc.2,
    cx := st1.cx + 1 }

/-- editorInsertNewLine (kilo.c): at column 0 insert an empty row before
the current one; otherwise insert a row holding the bytes after the cursor
at cy + 1 and truncate the current row to the cursor (recomputing it).
In both cases move to the start of the next row. -/
def editorInsertNewLine (st : EState) : EState :=
  if st.cx = 0 then
    let st1 := editorInsertRow st st.cy []
    { st1 with cy := st1.cy + 1, cx := 0 }
  else
    let row := rowAt st.row st.cy
    let st1 := editorInsertRow st (st.cy + 1) (row.chars.drop st.cx.toNat)
    let row1 := rowAt st1.row st.cy
    let row2 := editorUpdateRow st1.syn (row1.chars.take st.cx.toNat)
    { st1 with
      row := st1.row.set st.cy.toNat row2,
      cy := st.cy + 1, cx := 0 }

/-- editorDelChar (kilo.c): nothing past the end of the file or at the
very start of it; with cx > 0 delete the byte left of the cursor; at
column 0 join the current row onto the previous one (cursor to the old end
of the previous row), delete the current row, move up. -/
def editorDelChar (st : EState) : EState :=
  if st.cy = numrows st then st
  else if st.cx = 0 ∧ st.cy = 0 then st
  else
    let row := rowAt st.row st.cy
    if st.cx > 0 then
      let rc := editorRowDeleteChar st.syn row (st.cx - 1)
      { st with
        row := st.row.set st.cy.toNat rc.1,
        dirty := st.dirty + rc.2,
        cx := st.cx - 1 }
    else
      let prev := rowAt st.row (st.cy - 1)
      let rc := editorRowAppendString st.syn prev row.chars
      let st1 :=
        { st with
          cx := (prev.chars.length : Int),
          row := st.row.set (st.cy - 1).toNat rc.1,
          dirty := st.dirty + rc.2 }
      let st2 := editorDelRow st1 st.cy
      { st2 with cy := st.cy - 1 }

/-- editorMoveCursor (kilo.c): move by one arrow key with the left/right
line wrap, then clamp cx to the length of the (possibly new) current line,
a NULL line past the end counting as length 0. -/
def editorMoveCursor (st : EState) (key : Nat) : EState :=
  let rowIsNull := numrows st ≤ st.cy
  let st1 :=
    if key = ARROW_LEFT then
      if st.cx ≠ 0 then { st with cx := st.cx - 1 }
      else if st.cy > 0 then
        { st with cy := st.cy - 1, cx := ((rowAt st.row (st.cy - 1)).chars.length : Int) }
      else st
    else if key = ARROW_RIGHT then
      if ¬rowIsNull ∧ st.cx < ((rowAt st.row st.cy).chars.length : Int) then
        { st with cx := st.cx + 1 }
      else if ¬rowIsNull ∧ st.cx = ((rowAt st.row st.cy).chars.length : Int) then
        { st with cy := st.cy + 1, cx := 0 }
      else st
    else if key = ARROW_UP then
      if st.cy ≠ 0 then { st with cy := st.cy - 1 } else st
    else if key = ARROW_DOWN then
      if st.cy < numrows st then { st with cy := st.cy + 1 } else st
    else st
  let rowlen : Int :=
    if numrows st1 ≤ st1.cy then 0 else ((rowAt st1.row st1.cy).chars.length : Int)
  if st1.cx > rowlen then { st1 with cx := rowlen } else st1

/-- The while (times--) editorMoveCursor(...) loop of the PAGE_UP /
PAGE_DOWN handler, run n times. -/
def moveTimes (st : EState) (key : Nat) : Nat → EState
  | 0 => st
  | n + 1 => moveTimes (editorMoveCursor st key) key n

/-- The loop of editorRowCxToRx (kilo.c) over the first cx bytes of
chars: a tab advances rx by (KILO_TAB_STOP - 1) - rx % KILO_TAB_STOP and
the unconditional rx++ adds one more; any other byte adds one. -/
def cxToRxGo : List Nat → Nat → Nat
  | [], rx => rx
  | c :: rest, rx =>
    if c = 9 then cxToRxGo rest (rx + ((KILO_TAB_STOP - 1) - rx % KILO_TAB_STOP) + 1)
    else cxToRxGo rest (rx + 1)

/-- editorRowCxToRx (kilo.c). -/
def editorRowCxToRx (row : Erow) (cx : Nat) : Nat :=
  cxToRxGo (row.chars.take cx) 0

/-- The loop of editorRowRxToCx (kilo.c): walk chars accumulating cur_rx
exactly as cxToRxGo does, returning the first cx whose cur_rx exceeds the
target rx, or the row length when none does. -/
def rxToCxGo : List Nat → Nat → Nat → Nat → Nat
  | [], cx, _, _ => cx
  | c :: rest, cx, cur_rx, rx =>
    let cur_rx1 :=
      if c = 9 then cur_rx + ((KILO_TAB_STOP - 1) - cur_rx % KILO_TAB_STOP) + 1
      else cur_rx + 1
    if cur_rx1 > rx then cx else rxToCxGo rest (cx + 1) cur_rx1 rx

/-- editorRowRxToCx (kilo.c). -/
def editorRowRxToCx (row : Erow) (rx : Nat) : Nat :=
  rxToCxGo row.chars 0 0 rx

/-- editorRowsToString (kilo.c): each row's chars followed by one newline
byte, concatenated. -/
def editorRowsToString : List Erow → List Nat
  | [] => []
  | r :: rest => r.chars ++ 10 :: editorRowsToString rest

/-- The trailing-newline strip of editorOpen (kilo.c): while the line is
nonempty and ends in a newline or carriage-return byte, shorten it. -/
def stripTrailingNlCr (l : List Nat) : List Nat :=
  (l.reverse.dropWhile (fun c => c = 10 ∨ c = 13)).reverse

/-- The getline loop of editorOpen (kilo.c) on the file's bytes: each
getline call returns the bytes up to and including the next newline (or up
to the end of the file), the strip removes the trailing newline and
carriage-return bytes, and the result is appended as a row.  fuel bounds
the iteration count; each line consumes at least one byte, so the byte
count suffices. -/
def editorOpenRowsGo : Nat → List Nat → List (List Nat)
  | 0, _ => []
  | fuel + 1, s =>
    if s.isEmpty then []
    else
      let line := s.takeWhile (fun c => c ≠ 10)
      let raw := line ++ (if line.length < s.length then [10] else [])
      stripTrailingNlCr raw :: editorOpenRowsGo fuel (s.drop raw.length)

/-- The sequence of row chars editorOpen builds from a file's bytes. -/
def editorOpenRows (s : List Nat) : List (List Nat) :=
  editorOpenRowsGo s.length s

/-- The filematch test of editorSelectSyntaxHighlight (kilo.c): a pattern
starting with a dot is compared with strcmp against the extension (the
suffix of the filename from its last dot, when there is one), any other
pattern is looked for anywhere in the filename with strstr. -/
def matchPattern (fname : List Nat) (ext : Option (List Nat)) (p : List Nat) : Bool :=
  let is_ext := p.head? = some 46
  (is_ext ∧ ext ≠ none ∧ ext = some p) ∨ (¬is_ext ∧ (strstrIdx fname p).isSome)

/-- The HLDB scan of editorSelectSyntaxHighlight: the first entry one of
whose patterns matches. -/
def findSyntaxIn (fname : List Nat) (ext : Option (List Nat)) :
    List EditorSyntax → Option EditorSyntax
  | [] => none
  | s :: rest =>
    if s.filematch.any (matchPattern fname ext) then some s
    else findSyntaxIn fname ext rest

/-- editorSelectSyntaxHighlight (kilo.c): clear E.syntax, return with no
filename; else match the filename against HLDB and on a hit bind the
entry and recompute every row's hl (editorUpdateSyntax on its render). -/
def editorSelectSyntaxHighlight (st : EState) : EState :=
  let st0 := { st with syn := none }
  match st.filename with
  | none => st0
  | some fname =>
    let ext := strrchrSuffix fname 46
    match findSyntaxIn fname ext HLDB with
    | none => st0
    | some s =>
      { st0 with
        syn := some s,
        row := st0.row.map (fun r => { r with hl := editorUpdateSyntax (some s) r.render }) }

/-- editorScroll (kilo.c): recompute rx from the current row and cx (0
past the end of the file), then clamp rowoff and coloff so the cursor is
inside the visible window. -/
def editorScroll (st : EState) : EState :=
  let rx : Int :=
    if st.cy < numrows st then (editorRowCxToRx (rowAt st.row st.cy) st.cx.toNat : Int)
    else 0
  let rowoff := if st.cy < st.rowoff then st.cy else st.rowoff
  let rowoff := if st.cy ≥ rowoff + st.screenrows then st.cy - st.screenrows + 1 else rowoff
  let coloff := if rx < st.coloff then rx else st.coloff
  let coloff := if rx ≥ coloff + st.screencols then rx - st.screencols + 1 else coloff
  { st with rx := rx, rowoff := rowoff, coloff := coloff }

/-- One attempted read(STDIN_FILENO, &c, 1) of a byte stream: an element
some b is a byte arriving before the 0.1 s timeout, none is a timed-out
read.  editorReadKey's first read loops until a byte arrives. -/
def firstRead : List (Option Nat) → Option (Nat × List (Option Nat))
  | [] => none
  | none :: rest => firstRead rest
  | some b :: rest => some (b, rest)

/-- The escape-sequence dispatch of editorReadKey (kilo.c), entered after
the ESC byte: two single-attempt reads (a timeout returns bare ESC), then
the CSI letter table, the CSI digit-tilde table (after one more read), or
the two O-prefixed keys; anything unrecognized is bare ESC. -/
def readEscape (input : List (Option Nat)) : Nat :=
  match input with
  | some s0 :: input1 =>
    match input1 with
    | some s1 :: input2 =>
      if s0 = 91 then
        if 48 ≤ s1 ∧ s1 ≤ 57 then
          match input2 with
          | some s2 :: _ =>
            if s2 = 126 then
              if s1 = 49 then HOME_KEY
              else if s1 = 51 then DEL_KEY
              else if s1 = 52 then END_KEY
              else if s1 = 53 then PAGE_UP
              else if s1 = 54 then PAGE_DOWN
              else if s1 = 55 then HOME_KEY
              else if s1 = 56 then END_KEY
              else 27
            else 27
          | _ => 27
        else
          if s1 = 65 then ARROW_UP
          else if s1 = 66 then ARROW_DOWN
          else if s1 = 67 then ARROW_RIGHT
          else if s1 = 68 then ARROW_LEFT
          else if s1 = 72 then HOME_KEY
          else if s1 = 70 then END_KEY
          else 27
      else if s0 = 79 then
        if s1 = 72 then HOME_KEY
        else if s1 = 70 then END_KEY
        else 27
      else 27
    | _ => 27
  | _ => 27

/-- editorReadKey (kilo.c): block until one byte arrives (None when the
stream ends without one); a non-ESC byte is returned literally, ESC enters
the escape-sequence dispatch. -/
def editorReadKey (input : List (Option Nat)) : Option Nat :=
  match firstRead input with
  | none => none
  | some (c, rest) => if c = 27 then some (readEscape rest) else some c

/-- editorSetStatusMessage (kilo.c): vsnprintf into the 80-byte statusmsg
buffer truncates the formatted text to 79 characters. -/
def editorSetStatusMessage (st : EState) (msg : String) : EState :=
  { st with statusmsg := msg.take 79 }

/-- The environment of one editorSave call: the result of the Save-as
prompt (None when the user pressed ESC), and whether each of open(),
ftruncate() and write() succeeds, with strerror(errno) for the failure
message. -/
structure SaveEnv where
  promptRes : Option (List Nat)
  openOk : Bool
  ftruncateOk : Bool
  writeOk : Bool
  errnoMsg : String
deriving Repr, DecidableEq

/-- The body of editorSave (kilo.c) after a filename is in hand:
serialize the rows, open / ftruncate / write; on full success reset dirty
to 0 and report the byte count, on any failure leave the state otherwise
unchanged and report the I/O error. -/
def editorSaveBody (st : EState) (env : SaveEnv) : EState :=
  let len := (editorRowsToString st.row).length
  if env.openOk then
    if env.ftruncateOk then
      if env.writeOk then
        editorSetStatusMessage { st with dirty := 0 } (toString len ++ " bytes written to disk")
      else editorSetStatusMessage st ("Can\x27t save! I/O error: " ++ env.errnoMsg)
    else editorSetStatusMessage st ("Can\x27t save! I/O error: " ++ env.errnoMsg)
  else editorSetStatusMessage st ("Can\x27t save! I/O error: " ++ env.errnoMsg)

/-- editorSave (kilo.c): with no filename run the Save-as prompt (whose
result the environment supplies); ESC cancels with the status message
"Save cancelled" and no other change; otherwise bind the filename, rebind
the syntax and save.  With a filename, save directly. -/
def editorSave (st : EState) (env : SaveEnv) : EState :=
  match st.filename with
  | none =>
    match env.promptRes with
    | none => editorSetStatusMessage st ("Save cancelled")
    | some name =>
      editorSaveBody (editorSelectSyntaxHighlight { st with filename := some name }) env
  | some _ => editorSaveBody st env

/-- The static variables of editorFindCallback (kilo.c): last_match,
direction, saved_hl_line and saved_hl (None when there is nothing to
restore). -/
structure FindState where
  last_match : Int
  direction : Int
  saved_hl_line : Int
  saved_hl : Option (List Nat)
deriving Repr, DecidableEq

/-- Their values when a find session starts: the C statics are reset to
exactly these by the Enter/Escape branch of the previous session (and are
initialized so). -/
def findStateInit : FindState :=
  { last_match := -1, direction := 1, saved_hl_line := 0, saved_hl := none }

/-- The search loop of editorFindCallback: up to numrows steps from
last_match, moving by direction with wrap-around at both ends; on the
first row whose render contains the query, move the cursor there (cx via
editorRowRxToCx), set rowoff to numrows, save the row's hl and overwrite
the match's render range with HL_MATCH. -/
def searchLoop (query : List Nat) (dir : Int) :
    Nat → Int → EState → FindState → EState × FindState
  | 0, _, st, fs => (st, fs)
  | fuel + 1, current, st, fs =>
    let current := current + dir
    let current := if current = -1 then numrows st - 1
      else if current = numrows st then 0 else current
    let row := rowAt st.row current
    match strstrIdx row.render query with
    | some idx =>
      ({ st with
          cy := current,
          cx := (editorRowRxToCx row idx : Int),
          rowoff := numrows st,
          row := st.row.set current.toNat
            { row with hl := setRange row.hl idx query.length HL_MATCH } },
       { fs with
          last_match := current,
          saved_hl_line := current,
          saved_hl := some row.hl })
    | none => searchLoop query dir fuel current st fs

/-- The restore step at the top of editorFindCallback (kilo.c): if a saved
hl copy exists, memcpy it back over the saved line's hl (rsize bytes) and
clear the save slot. -/
def findRestore (st : EState) (fs : FindState) : EState × FindState :=
  match fs.saved_hl with
  | none => (st, fs)
  | some h =>
    let l := fs.saved_hl_line.toNat
    let row := st.row.getD l defaultRow
    ({ st with row := st.row.set l { row with hl := memcpyList row.hl h row.render.length } },
     { fs with saved_hl := none })

/-- The rest of editorFindCallback (kilo.c) after the restore step: Enter
or Escape resets last_match and direction and returns; arrow keys set the
direction (any other key resets last_match and direction); then search
numrows rows. -/
def findSearch (st : EState) (fs : FindState) (query : List Nat) (key : Nat) :
    EState × FindState :=
  if key = 13 ∨ key = 27 then
    (st, { fs with last_match := -1, direction := 1 })
  else
    let fs :=
      if key = ARROW_RIGHT ∨ key = ARROW_DOWN then { fs with direction := 1 }
      else if key = ARROW_LEFT ∨ key = ARROW_UP then { fs with direction := -1 }
      else { fs with last_match := -1, direction := 1 }
    let fs := if fs.last_match = -1 then { fs with direction := 1 } else fs
    searchLoop query fs.direction st.row.length fs.last_match st fs

/-- editorFindCallback (kilo.c): the restore step followed by the
key-dispatch and search. -/
def editorFindCallback (st : EState) (fs : FindState) (query : List Nat) (key : Nat) :
    EState × FindState :=
  let r := findRestore st fs
  findSearch r.1 r.2 query key

/-- One editorPrompt iteration's screen refresh: editorRefreshScreen runs
editorScroll first; of the frame assembly only the scroll's state change
is relevant here.  The status message shows the prompt around the buffer. -/
def promptRefresh (st : EState) (msg : String) : EState :=
  editorSetStatusMessage (editorScroll st) msg

/-- A prompt callback as editorPrompt sees one, threading the find
statics. -/
def PromptCb : Type :=
  EState → FindState → List Nat → Nat → EState × FindState

/-- if (callback) callback(buf, c) of editorPrompt. -/
def applyCb (cb : Option PromptCb) (st : EState) (fs : FindState)
    (buf : List Nat) (c : Nat) : EState × FindState :=
  match cb with
  | none => (st, fs)
  | some f => f st fs buf c

/-- The loop of editorPrompt (kilo.c) over the decoded keys it reads:
Backspace / Ctrl-H / Del shorten the buffer, Escape cancels (status
message cleared, callback told, result None), Enter with a nonempty
buffer accepts it, printable bytes below 128 append, and every continuing
iteration ends by invoking the callback with the buffer and the key.
None: the key list ran out with the prompt still open (the C loop would
block reading). -/
def promptLoop (prompt : String) (cb : Option PromptCb) :
    List Nat → EState → FindState → List Nat →
    Option (EState × FindState × Option (List Nat))
  | [], _, _, _ => none
  | c :: keys, st, fs, buf =>
    let st := promptRefresh st prompt
    if c = DEL_KEY ∨ c = 8 ∨ c = BACKSPACE then
      let buf1 := if buf.length ≠ 0 then buf.dropLast else buf
      let r := applyCb cb st fs buf1 c
      promptLoop prompt cb keys r.1 r.2 buf1
    else if c = 27 then
      let st := editorSetStatusMessage st ("")
      let r := applyCb cb st fs buf c
      some (r.1, r.2, none)
    else if c = 13 then
      if buf.length ≠ 0 then
        let st := editorSetStatusMessage st ("")
        let r := applyCb cb st fs buf c
        some (r.1, r.2, some buf)
      else
        let r := applyCb cb st fs buf c
        promptLoop prompt cb keys r.1 r.2 buf
    else if ¬iscntrl c ∧ c < 128 then
      let buf1 := buf ++ [c]
      let r := applyCb cb st fs buf1 c
      promptLoop prompt cb keys r.1 r.2 buf1
    else
      let r := applyCb cb st fs buf c
      promptLoop prompt cb keys r.1 r.2 buf

/-- editorFind (kilo.c): save cx, cy, coloff and rowoff, run the prompt
with editorFindCallback; when the prompt was cancelled (NULL query)
restore the four saved fields.  The C function returns void; the returned
pair also exposes whether a query was accepted (None = cancelled).  None:
the key list ran out with the prompt still open. -/
def editorFind (st : EState) (keys : List Nat) : Option (EState × Option (List Nat)) :=
  let saved_cx := st.cx
  let saved_cy := st.cy
  let saved_coloff := st.coloff
  let saved_rowoff := st.rowoff
  match promptLoop ("Search: (ESC/Arrows/Enter)") (some editorFindCallback)
      keys st findStateInit [] with
  | none => none
  | some (st1, _, some q) => some (st1, some q)
  | some (st1, _, none) =>
    some
      ({ st1 with
          cx := saved_cx, cy := saved_cy,
          coloff := saved_coloff, rowoff := saved_rowoff },
       none)

/-- The environment of one editorProcessKeypress call: what editorSave's
prompt and file system do, and the keys an editorFind session would read. -/
structure KpEnv where
  save : SaveEnv
  findKeys : List Nat
deriving Repr, DecidableEq

/-- The outcome of editorProcessKeypress: exit(code), or the new state
with the new value of the static quit_times counter. -/
inductive KpResult where
  | exited (code : Nat)
  | cont (st : EState) (quit_times : Int)
deriving Repr, DecidableEq

/-- editorProcessKeypress (kilo.c) on an already-decoded key.  quit_times
is the function's static counter; every branch except the Ctrl-Q warning
falls through to resetting it to KILO_QUIT_TIMES.  A find session whose
key list runs out blocks in C and is modelled as leaving the state
unchanged (no theorem below exercises that case). -/
def editorProcessKeypress (st : EState) (quit_times : Int) (env : KpEnv) (c : Nat) :
    KpResult :=
  if c = 13 then .cont (editorInsertNewLine st) KILO_QUIT_TIMES
  else if c = 17 then
    -- CTRL_KEY('q')
    if st.dirty ≠ 0 ∧ quit_times > 0 then
      let s := if quit_times = 1 then "" else "s"
      .cont
        (editorSetStatusMessage st
          ("Warning! File has unsaved changes. Press Crt-Q " ++ toString quit_times ++
           " more time" ++ s ++ " to quit."))
        (quit_times - 1)
    else .exited 0
  else if c = 19 then .cont (editorSave st env.save) KILO_QUIT_TIMES
  else if c = HOME_KEY then .cont { st with cx := 0 } KILO_QUIT_TIMES
  else if c = END_KEY then
    .cont
      (if st.cy < numrows st then
        { st with cx := ((rowAt st.row st.cy).chars.length : Int) }
      else st)
      KILO_QUIT_TIMES
  else if c = 6 then
    -- CTRL_KEY('f')
    .cont
      (match editorFind st env.findKeys with
       | some (st1, _) => st1
       | none => st)
      KILO_QUIT_TIMES
  else if c = BACKSPACE ∨ c = 8 ∨ c = DEL_KEY then
    let st1 := if c = DEL_KEY then editorMoveCursor st ARROW_RIGHT else st
    .cont (editorDelChar st1) KILO_QUIT_TIMES
  else if c = PAGE_UP ∨ c = PAGE_DOWN then
    let st1 :=
      if c = PAGE_UP then { st with cy := st.rowoff }
      else
        let cy1 := st.rowoff + st.screenrows - 1
        { st with cy := if cy1 > numrows st then numrows st else cy1 }
    .cont
      (moveTimes st1 (if c = PAGE_UP then ARROW_UP else ARROW_DOWN) st.screenrows.toNat)
      KILO_QUIT_TIMES
  else if c = ARROW_UP ∨ c = ARROW_DOWN ∨ c = ARROW_LEFT ∨ c = ARROW_RIGHT then
    .cont (editorMoveCursor st c) KILO_QUIT_TIMES
  else if c = 12 ∨ c = 27 then .cont st KILO_QUIT_TIMES
  else .cont (editorInsertChar st c) KILO_QUIT_TIMES

/-- initEditor (kilo.c) plus main's startup: all scalars zero, no rows, no
filename, no syntax; screenrows is the window height less the two bar
lines. -/
def initEState (winRows winCols : Int) : EState :=
  { cx := 0, cy := 0, rx := 0, rowoff := 0, coloff := 0,
    screenrows := winRows - 2, screencols := winCols,
    row := [], dirty := 0, filename := none, statusmsg := "", syn := none }

/-- editorOpen (kilo.c) on a filename and the opened file's bytes: set the
filename, select the syntax, append one row per parsed line (editorInsertRow
at numrows), and reset dirty to 0. -/
def editorOpen (st : EState) (fname : List Nat) (contents : List Nat) : EState :=
  let st1 := editorSelectSyntaxHighlight { st with filename := some fname }
  let st2 := (editorOpenRows contents).foldl
    (fun s line => editorInsertRow s (numrows s) line) st1
  { st2 with dirty := 0 }

/-! ### Invariants used by the claims -/

/-- The render/highlight coupling: hl carries one byte per byte of render. -/
def rowOk (r : Erow) : Prop := r.hl.length = r.render.length

/-- Every row of a row list satisfies the render/highlight coupling. -/
def rowsOk (rows : List Erow) : Prop := ∀ r ∈ rows, rowOk r

/-- No row of the list carries a MATCH highlight byte. -/
def noMatch (rows : List Erow) : Prop := ∀ r ∈ rows, HL_MATCH ∉ r.hl

/-- The cursor-state invariant of the spec: 0 ≤ cy ≤ numrows; on a real
row 0 ≤ cx ≤ its length; on the virtual last line cx = 0. -/
def cursorInv (st : EState) : Prop :=
  0 ≤ st.cy ∧ st.cy ≤ numrows st ∧
  (st.cy < numrows st → 0 ≤ st.cx ∧ st.cx ≤ ((rowAt st.row st.cy).chars.length : Int)) ∧
  (st.cy = numrows st → st.cx = 0)

instance (st : EState) : Decidable (cursorInv st) := by
  unfold cursorInv; infer_instance

instance (rows : List Erow) : Decidable (rowsOk rows) := by
  unfold rowsOk rowOk; infer_instance

instance (rows : List Erow) : Decidable (noMatch rows) := by
  unfold noMatch; infer_instance

/-! ### Length lemmas: the hl array tracks render byte for byte -/

theorem setRange_length (l : List Nat) (s len v : Nat) :
    (setRange l s len v).length = l.length := by
  simp [setRange]

theorem set_length (l : List Nat) (i v : Nat) : (l.set i v).length = l.length := by
  simp

theorem syntaxLoop_length (syn : EditorSyntax) (render : List Nat) :
    ∀ (fuel i : Nat) (prev_sep : Bool) (in_string : Nat) (hl : List Nat),
      hl.length = render.length →
      (syntaxLoop syn render fuel i prev_sep in_string hl).length = render.length := by
  intro fuel
  induction fuel with
  | zero => intro i ps is hl h; simpa [syntaxLoop] using h
  | succ n ih =>
    intro i ps is hl h
    rw [syntaxLoop]
    dsimp only
    repeat' split
    all_goals
      first
      | exact h
      | (rw [setRange_length]; exact h)
      | (apply ih; simp [setRange_length, h])

theorem editorUpdateSyntax_length (syn : Option EditorSyntax) (render : List Nat) :
    (editorUpdateSyntax syn render).length = render.length := by
  cases syn with
  | none => simp [editorUpdateSyntax]
  | some s =>
    simpa [editorUpdateSyntax] using
      syntaxLoop_length s render render.length 0 true 0
        (List.replicate render.length HL_NORMAL) (by simp)

theorem editorUpdateRow_rowOk (syn : Option EditorSyntax) (chars : List Nat) :
    rowOk (editorUpdateRow syn chars) := by
  simp [rowOk, editorUpdateRow, editorUpdateSyntax_length]

theorem rowsOk_set {rows : List Erow} {r : Erow} (h : rowsOk rows) (hr : rowOk r) (n : Nat) :
    rowsOk (rows.set n r) := by
  intro x hx
  rcases List.mem_or_eq_of_mem_set hx with hx' | rfl
  · exact h x hx'
  · exact hr

theorem rowsOk_insertAt {rows : List Erow} {r : Erow} (h : rowsOk rows) (hr : rowOk r) (n : Nat) :
    rowsOk (rows.take n ++ r :: rows.drop n) := by
  intro x hx
  rcases List.mem_append.1 hx with hx' | hx'
  · exact h x (List.mem_of_mem_take hx')
  · rcases List.mem_cons.1 hx' with rfl | hx''
    · exact hr
    · exact h x (List.mem_of_mem_drop hx'')

theorem rowsOk_eraseIdx {rows : List Erow} (h : rowsOk rows) (n : Nat) :
    rowsOk (rows.eraseIdx n) := fun x hx => h x ((rows.eraseIdx_sublist n).subset hx)

theorem rowOk_rowAt {rows : List Erow} (h : rowsOk rows) (i : Int) : rowOk (rowAt rows i) := by
  unfold rowAt
  by_cases hlt : i.toNat < rows.length
  · rw [List.getD_eq_getElem _ _ hlt]
    exact h _ (List.getElem_mem hlt)
  · rw [List.getD_eq_default _ _ (le_of_not_lt hlt)]
    constructor

/-- C2. Render/highlight length invariant: editorUpdateRow always leaves
hl exactly one byte per byte of render, and every operation that touches a
row's chars (character insert, delete, append via the line join, row
construction, the truncation in editorInsertNewLine, and a syntax rebind)
keeps every row of the document with |hl| = |render|. -/
theorem claim2_hl_render_length :
    (∀ (syn : Option EditorSyntax) (chars : List Nat), rowOk (editorUpdateRow syn chars)) ∧
    ∀ st : EState, rowsOk st.row →
      (∀ (a : Int) (s : List Nat), rowsOk (editorInsertRow st a s).row) ∧
      (∀ a : Int, rowsOk (editorDelRow st a).row) ∧
      (∀ c : Nat, rowsOk (editorInsertChar st c).row) ∧
      rowsOk (editorInsertNewLine st).row ∧
      rowsOk (editorDelChar st).row ∧
      rowsOk (editorSelectSyntaxHighlight st).row := by
  refine ⟨editorUpdateRow_rowOk, fun st h => ?_⟩
  have hins : ∀ (a : Int) (s : List Nat), rowsOk (editorInsertRow st a s).row := by
    intro a s
    unfold editorInsertRow
    split
    · exact h
    · exact rowsOk_insertAt h (editorUpdateRow_rowOk _ _) _
  refine ⟨hins, ?_, ?_, ?_, ?_, ?_⟩
  · intro a
    unfold editorDelRow
    split
    · exact h
    · exact rowsOk_eraseIdx h _
  · intro c
    unfold editorInsertChar
    have h1 : rowsOk (if st.cy = numrows st then editorInsertRow st (numrows st) [] else st).row := by
      split
      · exact hins _ _
      · exact h
    exact rowsOk_set h1 (editorUpdateRow_rowOk _ _) _
  · unfold editorInsertNewLine
    split
    · intro x hx; exact hins _ _ x hx
    · exact rowsOk_set (hins _ _) (editorUpdateRow_rowOk _ _) _
  · unfold editorDelChar
    split
    · exact h
    · split
      · exact h
      · dsimp only
        split
        · refine rowsOk_set h ?_ _
          unfold editorRowDeleteChar
          split
          · exact rowOk_rowAt h _
          · exact editorUpdateRow_rowOk _ _
        · dsimp only [editorDelRow, editorRowAppendString]
          split
          · exact rowsOk_set h (editorUpdateRow_rowOk _ _) _
          · exact rowsOk_eraseIdx (rowsOk_set h (editorUpdateRow_rowOk _ _) _) _
  · unfold editorSelectSyntaxHighlight
    cases st.filename with
    | none => exact h
    | some fname =>
      dsimp only
      cases findSyntaxIn fname (strrchrSuffix fname 46) HLDB with
      | none => exact h
      | some s =>
        intro x hx
        rcases List.mem_map.1 hx with ⟨r, _, rfl⟩
        simpa [rowOk] using editorUpdateSyntax_length (some s) r.render

/-! ### C4: the coordinate conversions -/

/-- The render-column advance both conversion loops perform for one source
byte (a proof-level abbreviation; the source definitions write it inline). -/
def stepRx (c rx : Nat) : Nat :=
  if c = 9 then rx + ((KILO_TAB_STOP - 1) - rx % KILO_TAB_STOP) + 1 else rx + 1

theorem cxToRxGo_cons (c : Nat) (l : List Nat) (rx : Nat) :
    cxToRxGo (c :: l) rx = cxToRxGo l (stepRx c rx) := by
  by_cases h : c = 9 <;> simp [cxToRxGo, stepRx, h]

theorem rxToCxGo_cons (c : Nat) (l : List Nat) (cx0 cur rx : Nat) :
    rxToCxGo (c :: l) cx0 cur rx =
      if stepRx c cur > rx then cx0 else rxToCxGo l (cx0 + 1) (stepRx c cur) rx := by
  by_cases h : c = 9 <;> simp [rxToCxGo, stepRx, h]

theorem stepRx_gt (c rx : Nat) : rx < stepRx c rx := by
  unfold stepRx; split <;> omega

theorem cxToRxGo_le (l : List Nat) : ∀ rx, rx ≤ cxToRxGo l rx := by
  induction l with
  | nil => intro rx; simp [cxToRxGo]
  | cons c rest ih =>
    intro rx
    rw [cxToRxGo_cons]
    exact le_trans (le_of_lt (stepRx_gt c rx)) (ih _)

theorem cxToRxGo_append (l1 l2 : List Nat) : ∀ rx,
    cxToRxGo (l1 ++ l2) rx = cxToRxGo l2 (cxToRxGo l1 rx) := by
  induction l1 with
  | nil => intro rx; simp [cxToRxGo]
  | cons c rest ih => intro rx; rw [List.cons_append, cxToRxGo_cons, cxToRxGo_cons, ih]

theorem renderLoop_length (l : List Nat) : ∀ idx,
    (renderLoop l idx).length + idx = cxToRxGo l idx := by
  induction l with
  | nil => intro idx; simp [renderLoop, cxToRxGo]
  | cons c rest ih =>
    intro idx
    by_cases h : c = 9
    · subst h
      have hm : idx % KILO_TAB_STOP < KILO_TAB_STOP := Nat.mod_lt _ (by decide)
      have hstep : stepRx 9 idx = idx + (KILO_TAB_STOP - idx % KILO_TAB_STOP) := by
        unfold stepRx KILO_TAB_STOP at *; simp; omega
      rw [cxToRxGo_cons, hstep]
      have := ih (idx + (KILO_TAB_STOP - idx % KILO_TAB_STOP))
      simp only [renderLoop]
      simp only [if_true, List.length_append, List.length_replicate]
      omega
    · rw [cxToRxGo_cons]
      have hstep : stepRx c idx = idx + 1 := by unfold stepRx; simp [h]
      rw [hstep]
      have := ih (idx + 1)
      simp only [renderLoop, if_neg h, List.length_cons]
      omega

/-- editorRowCxToRx at the full row length is the render size. -/
theorem cxToRx_full (row : Erow) (hwf : row.render = renderLoop row.chars 0) :
    row.render.length = cxToRxGo row.chars 0 := by
  have := renderLoop_length row.chars 0
  rw [hwf]; omega

theorem cxToRx_mono (row : Erow) {a b : Nat} (hab : a ≤ b) :
    editorRowCxToRx row a ≤ editorRowCxToRx row b := by
  unfold editorRowCxToRx
  have : row.chars.take b = row.chars.take a ++ (row.chars.drop a).take (b - a) := by
    rw [← List.take_add]
    congr 1
    omega
  rw [this, cxToRxGo_append]
  exact cxToRxGo_le _ _

theorem cxToRx_succ (row : Erow) {a : Nat} (ha : a < row.chars.length) :
    editorRowCxToRx row (a + 1) = stepRx (row.chars.getD a 0) (editorRowCxToRx row a) := by
  unfold editorRowCxToRx
  rw [List.take_succ, List.getD_eq_getElem _ _ ha]
  have : (row.chars[a]?).toList = [row.chars[a]] := by
    rw [List.getElem?_eq_getElem ha]; rfl
  rw [this, cxToRxGo_append, cxToRxGo_cons]
  rfl

/-- What the loop of editorRowRxToCx returns: the first source index whose
render cells pass the target column (the count k of consumed bytes, with
the render column of the prefix at or below the target and the next byte,
when one exists, passing it). -/
theorem rxToCxGo_spec (rx : Nat) : ∀ (l : List Nat) (cx0 cur : Nat), cur ≤ rx →
    ∃ k, rxToCxGo l cx0 cur rx = cx0 + k ∧ k ≤ l.length ∧
      cxToRxGo (l.take k) cur ≤ rx ∧
      (k < l.length → rx < cxToRxGo (l.take (k + 1)) cur) := by
  intro l
  induction l with
  | nil =>
    intro cx0 cur hc
    exact ⟨0, by simp [rxToCxGo], by simp, by simpa [cxToRxGo] using hc, by simp⟩
  | cons c rest ih =>
    intro cx0 cur hc
    rw [rxToCxGo_cons]
    by_cases hgt : stepRx c cur > rx
    · refine ⟨0, by simp [hgt], by simp, by simpa [cxToRxGo] using hc, fun _ => ?_⟩
      rw [List.take_succ_cons, List.take_zero, cxToRxGo_cons]
      simpa [cxToRxGo] using hgt
    · obtain ⟨k, h1, h2, h3, h4⟩ := ih (cx0 + 1) (stepRx c cur) (le_of_not_lt hgt)
      refine ⟨k + 1, ?_, by simpa using h2, ?_, fun hk => ?_⟩
      · rw [if_neg hgt, h1]; omega
      · rw [List.take_succ_cons, cxToRxGo_cons]; exact h3
      · rw [List.take_succ_cons, cxToRxGo_cons]
        exact h4 (by simpa using hk)

/-- C4 counterexample: on the one-tab row (rsize = 8) the render index 3
is valid, yet cx_to_rx(rx_to_cx(3)) = 0, not at least 3: the composition
returns the start of the covering source byte, which is at or below the
index, never above it. -/
theorem claim4_counterexample :
    3 < (editorUpdateRow none [9]).render.length ∧
    ¬ 3 ≤ editorRowCxToRx (editorUpdateRow none [9])
        (editorRowRxToCx (editorUpdateRow none [9]) 3) := by
  decide

/-- C4 (amended). For every row whose render is the tab expansion of its
chars and every valid render index r, the composition
editorRowCxToRx(row, editorRowRxToCx(row, r)) is at most r (the claim
stated at least), and equality holds whenever render cell r was produced
by a non-tab source byte (a source index j with chars[j] not a tab whose
render column is exactly r). -/
theorem claim4_coord_roundtrip (row : Erow) (r : Nat)
    (hwf : row.render = renderLoop row.chars 0) (hr : r < row.render.length) :
    editorRowCxToRx row (editorRowRxToCx row r) ≤ r ∧
    ((∃ j, j < row.chars.length ∧ row.chars.getD j 0 ≠ 9 ∧ editorRowCxToRx row j = r) →
      editorRowCxToRx row (editorRowRxToCx row r) = r) := by
  obtain ⟨k, h1, h2, h3, h4⟩ := rxToCxGo_spec r row.chars 0 0 (Nat.zero_le r)
  have hres : editorRowRxToCx row r = k := by simpa using h1
  have hk3 : editorRowCxToRx row k ≤ r := h3
  constructor
  · rw [hres]; exact hk3
  · rintro ⟨j, hj, _, hje⟩
    rw [hres]
    have hklt : k < row.chars.length := by
      rcases lt_or_eq_of_le h2 with h | h
      · exact h
      · exfalso
        have hfull : editorRowCxToRx row k = cxToRxGo row.chars 0 := by
          unfold editorRowCxToRx
          rw [h, List.take_length]
        rw [cxToRx_full row hwf] at hr
        omega
    have hk4 : r < editorRowCxToRx row (k + 1) := h4 hklt
    have hjk : j = k := by
      rcases lt_trichotomy j k with h | h | h
      · exfalso
        have hs : editorRowCxToRx row j < editorRowCxToRx row (j + 1) := by
          rw [cxToRx_succ row hj]
          exact stepRx_gt _ _
        have : editorRowCxToRx row (j + 1) ≤ editorRowCxToRx row k := cxToRx_mono row h
        omega
      · exact h
      · exfalso
        have : editorRowCxToRx row (k + 1) ≤ editorRowCxToRx row j := cxToRx_mono row h
        omega
    rw [← hjk]
    omega

/-- C4 witness: the amended theorem applied at a row with a tab and a
letter; render cell 8 is produced by the non-tab byte, so the round trip
is exact there. -/
theorem claim4_witness :
    ((editorUpdateRow none [9, 97]).render = renderLoop (editorUpdateRow none [9, 97]).chars 0 ∧
      8 < (editorUpdateRow none [9, 97]).render.length ∧
      editorRowCxToRx (editorUpdateRow none [9, 97]) 1 = 8) ∧
    editorRowCxToRx (editorUpdateRow none [9, 97])
      (editorRowRxToCx (editorUpdateRow none [9, 97]) 8) = 8 :=
  ⟨by decide,
   (claim4_coord_roundtrip (editorUpdateRow none [9, 97]) 8 (by decide) (by decide)).2
     ⟨1, by decide, by decide, by decide⟩⟩

/-! ### C3: serialize / load round trip -/

theorem takeWhile_append_stop {r t : List Nat} (h : 10 ∉ r) :
    (r ++ 10 :: t).takeWhile (fun c => c ≠ 10) = r := by
  induction r with
  | nil => simp [List.takeWhile]
  | cons x xs ih =>
    have hx : x ≠ 10 := fun hx => h (hx ▸ List.mem_cons_self x xs)
    have hxs : 10 ∉ xs := fun hm => h (List.mem_cons_of_mem x hm)
    simp only [List.cons_append, List.takeWhile_cons]
    rw [if_pos (by simpa using hx), ih hxs]

theorem stripTrailingNlCr_append_nl {l : List Nat} (h10 : 10 ∉ l)
    (h13 : l.getLast? ≠ some 13) : stripTrailingNlCr (l ++ [10]) = l := by
  unfold stripTrailingNlCr
  rw [List.reverse_append]
  simp only [List.reverse_cons, List.reverse_nil, List.nil_append, List.singleton_append,
    List.dropWhile_cons]
  rw [if_pos (by simp)]
  have : l.reverse.dropWhile (fun c => decide (c = 10 ∨ c = 13)) = l.reverse := by
    cases hrev : l.reverse with
    | nil => simp
    | cons x xs =>
      have hx10 : x ∈ l := by
        rw [← List.mem_reverse, hrev]; exact List.mem_cons_self x xs
      have hxlast : l.getLast? = some x := by
        rw [← List.head?_reverse, hrev]; rfl
      rw [List.dropWhile_cons, if_neg]
      simp only [decide_eq_true_eq, not_or]
      exact ⟨fun hx => h10 (hx ▸ hx10), fun hx => h13 (hxlast.trans (by rw [hx]))⟩
  rw [this, List.reverse_reverse]

theorem editorRowsToString_cons (r : Erow) (rest : List Erow) :
    editorRowsToString (r :: rest) = r.chars ++ 10 :: editorRowsToString rest := rfl

/-- The parsing loop inverts serialization row for row, for rows free of
newline bytes and not ending in a carriage return. -/
theorem editorOpenRowsGo_serialize : ∀ (rows : List Erow) (fuel : Nat),
    (editorRowsToString rows).length ≤ fuel →
    (∀ r ∈ rows, 10 ∉ r.chars ∧ r.chars.getLast? ≠ some 13) →
    editorOpenRowsGo fuel (editorRowsToString rows) = rows.map (·.chars) := by
  intro rows
  induction rows with
  | nil =>
    intro fuel _ _
    cases fuel <;> simp [editorRowsToString, editorOpenRowsGo]
  | cons r rest ih =>
    intro fuel hfuel hgood
    obtain ⟨h10, h13⟩ := hgood r (List.mem_cons_self r rest)
    rw [editorRowsToString_cons] at hfuel ⊢
    have hlen : (r.chars ++ 10 :: editorRowsToString rest).length =
        r.chars.length + 1 + (editorRowsToString rest).length := by simp; omega
    obtain ⟨f, rfl⟩ : ∃ f, fuel = f + 1 := by
      cases fuel with
      | zero => exfalso; rw [hlen] at hfuel; omega
      | succ n => exact ⟨n, rfl⟩
    rw [editorOpenRowsGo]
    rw [if_neg (by simp)]
    have hline : (r.chars ++ 10 :: editorRowsToString rest).takeWhile (fun c => c ≠ 10) =
        r.chars := takeWhile_append_stop h10
    rw [hline]
    dsimp only
    have hlt : r.chars.length < (r.chars ++ 10 :: editorRowsToString rest).length := by
      rw [hlen]; omega
    rw [if_pos hlt]
    have hdrop : (r.chars ++ 10 :: editorRowsToString rest).drop (r.chars.length + 1) =
        editorRowsToString rest := by
      have hsplit : r.chars ++ 10 :: editorRowsToString rest =
          (r.chars ++ [10]) ++ editorRowsToString rest := by simp
      have hlen2 : (r.chars ++ [10]).length = r.chars.length + 1 := by simp
      rw [hsplit, ← hlen2, List.drop_left]
    simp only [List.length_append, List.length_singleton]
    rw [hdrop, stripTrailingNlCr_append_nl h10 h13, List.map_cons]
    congr 1
    refine ih f ?_ (fun x hx => hgood x (List.mem_cons_of_mem r hx))
    rw [hlen] at hfuel
    omega

theorem editorUpdateRow_chars (syn : Option EditorSyntax) (chars : List Nat) :
    (editorUpdateRow syn chars).chars = chars := rfl

/-- Appending parsed lines with editorInsertRow at numrows stores exactly
those lines as the rows' chars. -/
theorem foldl_insertRow_chars : ∀ (lines : List (List Nat)) (st : EState),
    ((lines.foldl (fun s line => editorInsertRow s (numrows s) line) st).row).map (·.chars) =
      st.row.map (·.chars) ++ lines := by
  intro lines
  induction lines with
  | nil => intro st; simp
  | cons l rest ih =>
    intro st
    rw [List.foldl_cons, ih]
    have hstep : (editorInsertRow st (numrows st) l).row =
        st.row ++ [editorUpdateRow st.syn l] := by
      unfold editorInsertRow
      rw [if_neg (by unfold numrows; omega)]
      simp [numrows]
    rw [hstep]
    simp [editorUpdateRow_chars]

theorem editorSelectSyntaxHighlight_row_nil (st : EState) (h : st.row = []) :
    (editorSelectSyntaxHighlight st).row = [] := by
  unfold editorSelectSyntaxHighlight
  cases st.filename with
  | none => exact h
  | some fname =>
    dsimp only
    cases findSyntaxIn fname (strrchrSuffix fname 46) HLDB with
    | none => exact h
    | some s => simp [h]

/-- C3 counterexample: the round trip fails as stated.  A document whose
single row is one carriage-return byte serializes to CR LF, which load
strips entirely; a row holding a newline byte (insertable, see C10) is
split in two. -/
theorem claim3_counterexample :
    (editorOpen (initEState 10 10) []
        (editorRowsToString [{ chars := [13], render := [13], hl := [0] }])).row.map (·.chars)
      ≠ [[13]] ∧
    (editorOpen (initEState 10 10) []
        (editorRowsToString [{ chars := [10], render := [10], hl := [0] }])).row.map (·.chars)
      ≠ [[10]] := by
  decide

/-- C3 (amended). For every document none of whose rows contains a newline
byte or ends in a carriage-return byte, serializing with
editorRowsToString and reloading the byte string the way editorOpen does
yields a row sequence with identical chars, row for row.  (The two
excluded shapes are exactly the ones the counterexample shows break the
round trip: load splits at every newline and strips all trailing newline
and carriage-return bytes.) -/
theorem claim3_roundtrip (rows : List Erow) (fname : List Nat) (wr wc : Int)
    (hgood : ∀ r ∈ rows, 10 ∉ r.chars ∧ r.chars.getLast? ≠ some 13) :
    (editorOpen (initEState wr wc) fname (editorRowsToString rows)).row.map (·.chars) =
      rows.map (·.chars) := by
  unfold editorOpen
  dsimp only
  rw [foldl_insertRow_chars]
  rw [editorSelectSyntaxHighlight_row_nil _ rfl]
  rw [List.map_nil, List.nil_append]
  unfold editorOpenRows
  exact editorOpenRowsGo_serialize rows _ le_rfl hgood

/-- The concrete three-row document of the C3 witness. -/
def c3doc : List Erow :=
  [{ chars := [97, 98], render := [97, 98], hl := [0, 0] },
   { chars := [], render := [], hl := [] },
   { chars := [9, 99], render := [], hl := [] }]

/-- C3 witness: the amended round trip at a concrete three-row document. -/
theorem claim3_witness :
    (∀ r ∈ c3doc, 10 ∉ r.chars ∧ r.chars.getLast? ≠ some 13) ∧
    (editorOpen (initEState 24 80) [99] (editorRowsToString c3doc)).row.map (·.chars) =
      c3doc.map (·.chars) :=
  ⟨by decide, claim3_roundtrip c3doc [99] 24 80 (by decide)⟩

/-! ### C5: the key decoder -/

/-- C5. Key-decoder mapping: ESC [ A decodes to ARROW_UP; ESC [ 3 ~ to
DEL_KEY; ESC [ with digit 1 or 7 then ~ to HOME_KEY and 4 or 8 to
END_KEY, 5 to PAGE_UP, 6 to PAGE_DOWN; a timeout on any follow-up read
(after ESC, after the first sequence byte, or after a CSI digit) yields
bare ESC, as does any sequence outside the dispatch tables; and a
non-ESC first byte is returned literally. -/
theorem claim5_key_decoder :
    (∀ rest, editorReadKey (some 27 :: some 91 :: some 65 :: rest) = some ARROW_UP) ∧
    (∀ rest, editorReadKey (some 27 :: some 91 :: some 51 :: some 126 :: rest) = some DEL_KEY) ∧
    (∀ rest d, (d = 49 ∨ d = 55) →
      editorReadKey (some 27 :: some 91 :: some d :: some 126 :: rest) = some HOME_KEY) ∧
    (∀ rest d, (d = 52 ∨ d = 56) →
      editorReadKey (some 27 :: some 91 :: some d :: some 126 :: rest) = some END_KEY) ∧
    (∀ rest, editorReadKey (some 27 :: some 91 :: some 53 :: some 126 :: rest) = some PAGE_UP) ∧
    (∀ rest, editorReadKey (some 27 :: some 91 :: some 54 :: some 126 :: rest) = some PAGE_DOWN) ∧
    (∀ rest, editorReadKey (some 27 :: none :: rest) = some 27) ∧
    (∀ rest b, editorReadKey (some 27 :: some b :: none :: rest) = some 27) ∧
    (∀ rest d, 48 ≤ d → d ≤ 57 →
      editorReadKey (some 27 :: some 91 :: some d :: none :: rest) = some 27) ∧
    (∀ rest s0 s1, s0 ≠ 91 → s0 ≠ 79 →
      editorReadKey (some 27 :: some s0 :: some s1 :: rest) = some 27) ∧
    (∀ rest s1, ¬(48 ≤ s1 ∧ s1 ≤ 57) →
      s1 ≠ 65 → s1 ≠ 66 → s1 ≠ 67 → s1 ≠ 68 → s1 ≠ 72 → s1 ≠ 70 →
      editorReadKey (some 27 :: some 91 :: some s1 :: rest) = some 27) ∧
    (∀ rest d s2, 48 ≤ d → d ≤ 57 → s2 ≠ 126 →
      editorReadKey (some 27 :: some 91 :: some d :: some s2 :: rest) = some 27) ∧
    (∀ rest d, (d = 48 ∨ d = 50 ∨ d = 57) →
      editorReadKey (some 27 :: some 91 :: some d :: some 126 :: rest) = some 27) ∧
    (∀ rest s1, s1 ≠ 72 → s1 ≠ 70 →
      editorReadKey (some 27 :: some 79 :: some s1 :: rest) = some 27) ∧
    (∀ rest c, c ≠ 27 → editorReadKey (some c :: rest) = some c) := by
  refine ⟨?_, ?_, ?_, ?_, ?_, ?_, ?_, ?_, ?_, ?_, ?_, ?_, ?_, ?_, ?_⟩
  · intro rest; rfl
  · intro rest; rfl
  · rintro rest d (rfl | rfl) <;> rfl
  · rintro rest d (rfl | rfl) <;> rfl
  · intro rest; rfl
  · intro rest; rfl
  · intro rest; rfl
  · intro rest b
    simp only [editorReadKey, firstRead, readEscape, if_true]
  · intro rest d h1 h2
    simp only [editorReadKey, firstRead, readEscape, if_true]
    rw [if_pos (show 48 ≤ d ∧ d ≤ 57 from ⟨h1, h2⟩)]
  · intro rest s0 s1 h1 h2
    simp only [editorReadKey, firstRead, readEscape, if_true]
    rw [if_neg h1, if_neg h2]
  · intro rest s1 h0 h1 h2 h3 h4 h5 h6
    simp only [editorReadKey, firstRead, readEscape, if_true]
    rw [if_neg h0, if_neg h1, if_neg h2, if_neg h3, if_neg h4, if_neg h5, if_neg h6]
  · intro rest d s2 h1 h2 h3
    simp only [editorReadKey, firstRead, readEscape, if_true]
    rw [if_pos (show 48 ≤ d ∧ d ≤ 57 from ⟨h1, h2⟩), if_neg h3]
  · rintro rest d (rfl | rfl | rfl) <;> rfl
  · intro rest s1 h1 h2
    simp only [editorReadKey, firstRead, readEscape, if_true]
    rw [if_neg h1, if_neg h2]
    rw [if_neg (show ¬(79 = 91) by decide)]
  · intro rest c hc
    simp only [editorReadKey, firstRead]
    rw [if_neg hc]

/-- C5 witness: the decoder theorem's quantified parts applied at
concrete streams. -/
theorem claim5_witness :
    editorReadKey [some 27, some 91, some 55, some 126] = some HOME_KEY ∧
    editorReadKey [some 27, some 88, some 99] = some 27 ∧
    editorReadKey [some 27, some 91, some 53, none] = some 27 ∧
    editorReadKey [some 27, some 79, some 65] = some 27 ∧
    editorReadKey [some 17] = some 17 :=
  ⟨claim5_key_decoder.2.2.1 [] 55 (Or.inr rfl),
   claim5_key_decoder.2.2.2.2.2.2.2.2.2.1 [] 88 99 (by decide) (by decide),
   claim5_key_decoder.2.2.2.2.2.2.2.2.1 [] 53 (by decide) (by decide),
   claim5_key_decoder.2.2.2.2.2.2.2.2.2.2.2.2.2.1 [] 65 (by decide) (by decide),
   claim5_key_decoder.2.2.2.2.2.2.2.2.2.2.2.2.2.2 [] 17 (by decide)⟩

/-! ### C10: unbound keys are inserted literally -/

theorem getD_insert_self (l : List Nat) (a c : Nat) (h : a ≤ l.length) :
    (l.take a ++ c :: l.drop a).getD a 0 = c := by
  have hlen : (l.take a).length = a := by simp [Nat.min_eq_left h]
  rw [List.getD_eq_getElem?_getD, List.getElem?_append_right (by omega), hlen]
  simp

theorem editorInsertRow_cx (st : EState) (a : Int) (sl : List Nat) :
    (editorInsertRow st a sl).cx = st.cx := by
  unfold editorInsertRow; split <;> rfl

theorem editorInsertRow_cy (st : EState) (a : Int) (sl : List Nat) :
    (editorInsertRow st a sl).cy = st.cy := by
  unfold editorInsertRow; split <;> rfl

theorem editorInsertRow_syn (st : EState) (a : Int) (sl : List Nat) :
    (editorInsertRow st a sl).syn = st.syn := by
  unfold editorInsertRow; split <;> rfl

theorem editorInsertRow_row (st : EState) (a : Int) (sl : List Nat)
    (h0 : 0 ≤ a) (hle : a ≤ numrows st) :
    (editorInsertRow st a sl).row =
      st.row.take a.toNat ++ editorUpdateRow st.syn sl :: st.row.drop a.toNat := by
  unfold editorInsertRow
  rw [if_neg (by omega)]

/-- C10. Any key not bound in editorProcessKeypress's dispatch table —
including the newline byte 0x0A (Ctrl-J) and every byte at or above 128 —
falls to the default case and is inserted literally into the current
row's chars at the cursor by editorInsertChar, so rows can come to hold
arbitrary bytes, the newline byte included. -/
theorem claim10_default_insert (st : EState) (qt : Int) (env : KpEnv) (c : Nat)
    (hc : c ∉ ([13, 17, 19, HOME_KEY, END_KEY, 6, BACKSPACE, 8, DEL_KEY,
      PAGE_UP, PAGE_DOWN, ARROW_UP, ARROW_DOWN, ARROW_LEFT, ARROW_RIGHT, 12, 27] : List Nat))
    (hinv : cursorInv st) :
    editorProcessKeypress st qt env c = .cont (editorInsertChar st c) KILO_QUIT_TIMES ∧
    (rowAt (editorInsertChar st c).row st.cy).chars.getD st.cx.toNat 0 = c := by
  simp only [List.mem_cons, List.mem_singleton, not_or] at hc
  obtain ⟨h13, h17, h19, hHome, hEnd, h6, hB, h8, hD, hPU, hPD, hAU, hAD, hAL, hAR,
    h12, h27, -⟩ := hc
  constructor
  · unfold editorProcessKeypress
    rw [if_neg h13, if_neg h17, if_neg h19, if_neg hHome, if_neg hEnd, if_neg h6,
      if_neg (fun h => h.elim hB (fun h2 => h2.elim h8 hD)),
      if_neg (fun h => h.elim hPU hPD),
      if_neg (fun h => h.elim hAU (fun h2 => h2.elim hAD (fun h3 => h3.elim hAL hAR))),
      if_neg (fun h => h.elim h12 h27)]
  · obtain ⟨hcy0, hcyle, hreal, hvirt⟩ := hinv
    unfold editorInsertChar
    rcases lt_or_eq_of_le hcyle with hlt | heq
    · -- the cursor is on a real row
      obtain ⟨hcx0, hcxle⟩ := hreal hlt
      rw [if_neg (ne_of_lt hlt)]
      dsimp only
      simp only [rowAt] at hcxle ⊢
      have hcylen : st.cy.toNat < st.row.length := by
        unfold numrows at hlt; omega
      rw [List.getD_eq_getElem?_getD (st.row.set _ _),
        List.getElem?_set_self (by simpa using hcylen)]
      simp only [Option.getD_some]
      unfold editorRowInsertChar
      rw [if_neg (by omega)]
      dsimp only
      rw [editorUpdateRow_chars]
      exact getD_insert_self _ _ _ (by omega)
    · -- the cursor is on the virtual line past the end: an empty row is appended
      have hcx0 : st.cx = 0 := hvirt heq
      rw [if_pos heq]
      have hins : (editorInsertRow st (numrows st) []).row =
          st.row ++ [editorUpdateRow st.syn []] := by
        rw [editorInsertRow_row st (numrows st) [] (by unfold numrows; omega) le_rfl]
        simp [numrows]
      dsimp only
      rw [editorInsertRow_cy, editorInsertRow_cx, editorInsertRow_syn, hins]
      have hcynat : st.cy.toNat = st.row.length := by
        unfold numrows at heq; omega
      have hrowAt : rowAt (st.row ++ [editorUpdateRow st.syn []]) st.cy =
          editorUpdateRow st.syn [] := by
        unfold rowAt
        rw [List.getD_eq_getElem?_getD, hcynat, List.getElem?_append_right le_rfl]
        simp
      rw [hrowAt]
      unfold editorRowInsertChar
      rw [editorUpdateRow_chars, if_neg (by rw [hcx0]; simp)]
      dsimp only
      simp only [rowAt]
      rw [List.getD_eq_getElem?_getD ((st.row ++ [editorUpdateRow st.syn []]).set _ _),
        List.getElem?_set_self (by simp [hcynat])]
      simp only [Option.getD_some]
      rw [editorUpdateRow_chars, hcx0]
      simp

/-- The concrete one-row state of the C10 witness, cursor at column 1. -/
def c10st : EState :=
  { cx := 1, cy := 0, rx := 0, rowoff := 0, coloff := 0, screenrows := 10,
    screencols := 40, row := [{ chars := [97, 98], render := [97, 98], hl := [0, 0] }],
    dirty := 0, filename := none, statusmsg := "", syn := none }

/-- The keypress environment used by concrete runs (no find keys; a
prompt that answers nothing; a file system that succeeds). -/
def env0 : KpEnv :=
  { save := { promptRes := none, openOk := true, ftruncateOk := true, writeOk := true,
              errnoMsg := "" },
    findKeys := [] }

/-- C10 witness: the newline byte 0x0A lands verbatim in the row's chars
at the cursor. -/
theorem claim10_witness :
    ((10 : Nat) ∉ ([13, 17, 19, HOME_KEY, END_KEY, 6, BACKSPACE, 8, DEL_KEY,
        PAGE_UP, PAGE_DOWN, ARROW_UP, ARROW_DOWN, ARROW_LEFT, ARROW_RIGHT, 12, 27] : List Nat) ∧
      cursorInv c10st) ∧
    (rowAt (editorInsertChar c10st 10).row 0).chars.getD 1 0 = 10 :=
  ⟨⟨by decide, by decide⟩, (claim10_default_insert c10st 2 env0 10 (by decide) (by decide)).2⟩

/-! ### C6: quit confirmation -/

/-- A concrete dirty state for the quit-confirmation runs. -/
def c6st : EState :=
  { cx := 0, cy := 0, rx := 0, rowoff := 0, coloff := 0, screenrows := 10,
    screencols := 40, row := [{ chars := [97], render := [97], hl := [0] }],
    dirty := 1, filename := none, statusmsg := "", syn := none }

set_option maxRecDepth 4000 in
/-- C6. The quit-confirmation behaviour at the concrete dirty state: the
first Ctrl-Q does not exit and decrements the counter from 2, the second
shows "1 more time" and decrements to 0, the third exits 0; a clean
buffer exits at once; any other key hands back counter 2.  The warning
message the code produces reads "Crt-Q" (a misspelling of the "Ctrl-Q"
the spec states), which is the code bug this claim uncovers. -/
theorem claim6_quit_behavior :
    editorProcessKeypress c6st 2 env0 17 =
      .cont (editorSetStatusMessage c6st
        ("Warning! File has unsaved changes. Press Crt-Q 2 more times to quit.")) 1 ∧
    editorProcessKeypress c6st 1 env0 17 =
      .cont (editorSetStatusMessage c6st
        ("Warning! File has unsaved changes. Press Crt-Q 1 more time to quit.")) 0 ∧
    editorProcessKeypress c6st 0 env0 17 = .exited 0 ∧
    editorProcessKeypress { c6st with dirty := 0 } 2 env0 17 = .exited 0 ∧
    editorProcessKeypress c6st 1 env0 ARROW_UP = .cont (editorMoveCursor c6st ARROW_UP) 2 ∧
    (editorSetStatusMessage c6st
        ("Warning! File has unsaved changes. Press Crt-Q 2 more times to quit.")).statusmsg ≠
      "Warning! File has unsaved changes. Press Ctrl-Q 2 more times to quit." := by
  refine ⟨?_, ?_, ?_, ?_, ?_, ?_⟩ <;> decide

/-! ### C7: dirty bookkeeping -/

theorem editorSetStatusMessage_dirty (st : EState) (m : String) :
    (editorSetStatusMessage st m).dirty = st.dirty := by
  simp [editorSetStatusMessage]

theorem editorSelectSyntaxHighlight_dirty (st : EState) :
    (editorSelectSyntaxHighlight st).dirty = st.dirty := by
  unfold editorSelectSyntaxHighlight
  cases st.filename with
  | none => rfl
  | some f =>
    dsimp only
    cases findSyntaxIn f (strrchrSuffix f 46) HLDB <;> rfl

set_option maxRecDepth 8000 in
/-- C7. Dirty bookkeeping: every effective edit operation (row insert and
delete at a valid index, character insert, the newline split, character
delete and line join) leaves dirty positive; a save that reaches the
successful write resets dirty to 0; a cancelled Save-as prompt or any
failing open/ftruncate/write leaves dirty unchanged. -/
theorem claim7_dirty (st : EState) (env : SaveEnv)
    (hd : 0 ≤ st.dirty) (hinv : cursorInv st) :
    (∀ (a : Int) (sl : List Nat), 0 ≤ a → a ≤ numrows st →
      0 < (editorInsertRow st a sl).dirty) ∧
    (∀ a : Int, 0 ≤ a → a < numrows st → 0 < (editorDelRow st a).dirty) ∧
    (∀ c : Nat, 0 < (editorInsertChar st c).dirty) ∧
    0 < (editorInsertNewLine st).dirty ∧
    (st.cy < numrows st → ¬(st.cx = 0 ∧ st.cy = 0) → 0 < (editorDelChar st).dirty) ∧
    ((st.filename ≠ none ∨ env.promptRes ≠ none) → env.openOk → env.ftruncateOk →
      env.writeOk → (editorSave st env).dirty = 0) ∧
    (st.filename = none → env.promptRes = none → (editorSave st env).dirty = st.dirty) ∧
    (¬(env.openOk ∧ env.ftruncateOk ∧ env.writeOk) → (editorSave st env).dirty = st.dirty) := by
  obtain ⟨hcy0, hcyle, hreal, hvirt⟩ := hinv
  have hinsd : ∀ (a : Int) (sl : List Nat), 0 ≤ a → a ≤ numrows st →
      (editorInsertRow st a sl).dirty = st.dirty + 1 := by
    intro a sl h0 h1
    unfold editorInsertRow
    rw [if_neg (by omega)]
  refine ⟨?_, ?_, ?_, ?_, ?_, ?_, ?_, ?_⟩
  · intro a sl h0 h1
    rw [hinsd a sl h0 h1]; omega
  · intro a h0 h1
    unfold editorDelRow
    rw [if_neg (by omega)]
    dsimp only; omega
  · intro c
    unfold editorInsertChar editorRowInsertChar
    dsimp only
    split
    · rw [hinsd _ _ (by unfold numrows; omega) le_rfl]; omega
    · omega
  · unfold editorInsertNewLine
    split
    · dsimp only
      rw [hinsd _ _ hcy0 hcyle]; omega
    · dsimp only
      have hcylt : st.cy < numrows st := by
        rcases lt_or_eq_of_le hcyle with h | h
        · exact h
        · exact absurd (hvirt h) (by assumption)
      rw [hinsd _ _ (by omega) (by omega)]; omega
  · intro hlt hne
    obtain ⟨hcx0, hcxle⟩ := hreal hlt
    unfold editorDelChar
    rw [if_neg (ne_of_lt hlt)]
    rw [if_neg hne]
    dsimp only
    split
    · unfold editorRowDeleteChar
      rw [if_neg (by unfold rowAt at hcxle ⊢; omega)]
      dsimp only; omega
    · dsimp only [editorRowAppendString, editorDelRow]
      rw [if_neg (by simp only [numrows, List.length_set]; unfold numrows at hlt; omega)]
      dsimp only; omega
  · intro hname hopen htrunc hwrite
    unfold editorSave editorSaveBody
    cases hf : st.filename with
    | none =>
      cases hp : env.promptRes with
      | none =>
        exfalso
        rcases hname with h | h
        · exact h hf
        · exact h hp
      | some name =>
        dsimp only
        rw [if_pos hopen, if_pos htrunc, if_pos hwrite]
        rfl
    | some name =>
      dsimp only
      rw [if_pos hopen, if_pos htrunc, if_pos hwrite]
      rfl
  · intro hf hp
    unfold editorSave
    rw [hf, hp]
    rfl
  · intro hfail
    unfold editorSave editorSaveBody
    cases hf : st.filename with
    | none =>
      cases hp : env.promptRes with
      | none => rfl
      | some name =>
        dsimp only
        split
        next h1 =>
          split
          next h2 =>
            split
            next h3 => exact absurd ⟨h1, h2, h3⟩ hfail
            next _ => rw [editorSetStatusMessage_dirty, editorSelectSyntaxHighlight_dirty]
          next _ => rw [editorSetStatusMessage_dirty, editorSelectSyntaxHighlight_dirty]
        next _ => rw [editorSetStatusMessage_dirty, editorSelectSyntaxHighlight_dirty]
    | some name =>
      dsimp only
      split
      next h1 =>
        split
        next h2 =>
          split
          next h3 => exact absurd ⟨h1, h2, h3⟩ hfail
          next _ => rw [editorSetStatusMessage_dirty]
        next _ => rw [editorSetStatusMessage_dirty]
      next _ => rw [editorSetStatusMessage_dirty]

/-- C7 witness: the dirty conjunction applied at the concrete dirty
state (where saving succeeds) and each hypothesis discharged. -/
theorem claim7_witness :
    (0 ≤ c6st.dirty ∧ cursorInv c6st) ∧
    0 < (editorInsertChar c6st 97).dirty ∧
    (editorSave { c6st with filename := some [97] } env0.save).dirty = 0 :=
  ⟨⟨by decide, by decide⟩,
   (claim7_dirty c6st env0.save (by decide) (by decide)).2.2.1 97,
   (claim7_dirty { c6st with filename := some [97] } env0.save (by decide)
     (by decide)).2.2.2.2.2.1 (Or.inl (by decide)) rfl rfl rfl⟩

/-! ### C1: the cursor-state invariant -/

theorem cursorInv_cx_nonneg {st : EState} (h : cursorInv st) : 0 ≤ st.cx := by
  obtain ⟨hcy0, hcyle, hreal, hvirt⟩ := h
  rcases lt_or_eq_of_le hcyle with hlt | heq
  · exact (hreal hlt).1
  · rw [hvirt heq]

theorem getD_eraseIdx_lt {α} (l : List α) (i j : Nat) (d : α) (hji : j < i)
    (hjl : j < l.length) : (l.eraseIdx i).getD j d = l.getD j d := by
  rw [List.eraseIdx_eq_take_drop_succ, List.getD_eq_getElem?_getD, List.getD_eq_getElem?_getD,
    List.getElem?_append, if_pos (by simp [List.length_take]; omega)]
  congr 1
  exact List.getElem?_take_of_lt hji

/-- editorMoveCursor establishes the cursor invariant from the weaker
precondition the PAGE_UP / PAGE_DOWN handlers provide (cursor row in
range and a nonnegative column): the clamp at its end repairs cx. -/
theorem editorMoveCursor_inv (st : EState) (key : Nat)
    (hcy0 : 0 ≤ st.cy) (hcyle : st.cy ≤ numrows st) (hcx0 : 0 ≤ st.cx) :
    cursorInv (editorMoveCursor st key) := by
  unfold editorMoveCursor
  dsimp only
  repeat' split
  all_goals
    refine ⟨?_, ?_, fun hlt => ⟨?_, ?_⟩, fun heq => ?_⟩ <;>
      (dsimp only [numrows] at *) <;> omega

theorem cursorInv_weak {st : EState} (h : cursorInv st) :
    0 ≤ st.cy ∧ st.cy ≤ numrows st ∧ 0 ≤ st.cx :=
  ⟨h.1, h.2.1, cursorInv_cx_nonneg h⟩

theorem moveTimes_inv (key : Nat) : ∀ (n : Nat) (st : EState),
    cursorInv st → cursorInv (moveTimes st key n) := by
  intro n
  induction n with
  | zero => intro st h; exact h
  | succ m ih =>
    intro st h
    obtain ⟨h1, h2, h3⟩ := cursorInv_weak h
    exact ih _ (editorMoveCursor_inv st key h1 h2 h3)

/-- The state a continuing editorProcessKeypress result carries (the
default is returned for an exit, which the theorems below never hit). -/
def kpState (r : KpResult) (d : EState) : EState :=
  match r with
  | .exited _ => d
  | .cont st _ => st

/-- The concrete states of the C1 counterexample: an empty document with
a stale row offset (5, with 0 rows) for PAGE_UP, and a zero-height
text area (screenrows = 0, a two-line terminal) for PAGE_DOWN.  Both
satisfy the cursor invariant. -/
def c1bad1 : EState :=
  { cx := 0, cy := 0, rx := 0, rowoff := 5, coloff := 0, screenrows := 1,
    screencols := 40, row := [], dirty := 0, filename := none, statusmsg := "",
    syn := none }

def c1bad2 : EState :=
  { cx := 0, cy := 0, rx := 0, rowoff := 0, coloff := 0, screenrows := 0,
    screencols := 40, row := [], dirty := 0, filename := none, statusmsg := "",
    syn := none }

/-- C1 counterexample: the invariant alone is not preserved by PAGE_UP
and PAGE_DOWN.  With rowoff = 5 on an empty document, PAGE_UP jumps cy to
5 and one arrow-up leaves cy = 4 > numrows = 0; with screenrows = 0,
PAGE_DOWN sets cy = rowoff + screenrows - 1 = -1 and runs no repairing
arrow moves.  (The hypotheses 0 ≤ rowoff ≤ numrows and screenrows ≥ 1 the
amended claim adds are exactly what these two runs violate.) -/
theorem claim1_counterexample :
    (cursorInv c1bad1 ∧
      ¬ cursorInv (kpState (editorProcessKeypress c1bad1 2 env0 PAGE_UP) c1bad1)) ∧
    (cursorInv c1bad2 ∧
      ¬ cursorInv (kpState (editorProcessKeypress c1bad2 2 env0 PAGE_DOWN) c1bad2)) := by
  decide

/-- C1 (amended). In a state satisfying the cursor invariant and in
addition 0 ≤ rowoff ≤ numrows and screenrows ≥ 1 — both guaranteed before
every keypress, since editorScroll runs first and clamps rowoff to cy and
a usable terminal has at least three lines — every cursor movement
(editorMoveCursor on any key, HOME, END, PAGE_UP, PAGE_DOWN) and every
edit operation (editorInsertChar, editorInsertNewLine, editorDelChar)
leaves the cursor invariant satisfied. -/
theorem claim1_cursor_invariant (st : EState) (qt : Int) (env : KpEnv)
    (hinv : cursorInv st) (hro0 : 0 ≤ st.rowoff) (hrole : st.rowoff ≤ numrows st)
    (hsr : 1 ≤ st.screenrows) :
    (∀ key : Nat, cursorInv (editorMoveCursor st key)) ∧
    (∀ c : Nat, cursorInv (editorInsertChar st c)) ∧
    cursorInv (editorInsertNewLine st) ∧
    cursorInv (editorDelChar st) ∧
    cursorInv (kpState (editorProcessKeypress st qt env HOME_KEY) st) ∧
    cursorInv (kpState (editorProcessKeypress st qt env END_KEY) st) ∧
    cursorInv (kpState (editorProcessKeypress st qt env PAGE_UP) st) ∧
    cursorInv (kpState (editorProcessKeypress st qt env PAGE_DOWN) st) := by
  obtain ⟨hw1, hw2, hw3⟩ := cursorInv_weak hinv
  obtain ⟨hcy0, hcyle, hreal, hvirt⟩ := hinv
  refine ⟨fun key => editorMoveCursor_inv st key hw1 hw2 hw3, ?_, ?_, ?_, ?_, ?_, ?_, ?_⟩
  · -- editorInsertChar
    intro c
    unfold editorInsertChar editorRowInsertChar
    dsimp only
    split
    next heq =>
      have hins : (editorInsertRow st (numrows st) []).row =
          st.row ++ [editorUpdateRow st.syn []] := by
        rw [editorInsertRow_row st (numrows st) [] (by unfold numrows; omega) le_rfl]
        simp [numrows]
      rw [editorInsertRow_cy, editorInsertRow_cx, editorInsertRow_syn, hins]
      have hcx0 : st.cx = 0 := hvirt heq
      have hcynat : st.cy.toNat = st.row.length := by unfold numrows at heq; omega
      have hrowAt : rowAt (st.row ++ [editorUpdateRow st.syn []]) st.cy =
          editorUpdateRow st.syn [] := by
        unfold rowAt
        rw [List.getD_eq_getElem?_getD, hcynat, List.getElem?_append_right le_rfl]
        simp
      rw [hrowAt]
      rw [editorUpdateRow_chars, if_neg (by rw [hcx0]; simp)]
      refine ⟨by dsimp only; omega, ?_, fun hlt => ⟨by dsimp only; omega, ?_⟩,
        fun heq2 => by exfalso; revert heq2; dsimp only [numrows]; simp [hcynat]; omega⟩
      · dsimp only [numrows]
        simp only [List.length_set, List.length_append, List.length_singleton]
        unfold numrows at heq
        omega
      · dsimp only
        unfold rowAt
        rw [List.getD_eq_getElem?_getD, List.getElem?_set_self
          (by simp only [List.length_append, List.length_singleton]; omega)]
        simp only [Option.getD_some, editorUpdateRow_chars]
        rw [hcx0]
        simp
    next hne =>
      have hlt : st.cy < numrows st := lt_of_le_of_ne hcyle hne
      obtain ⟨hcx0, hcxle⟩ := hreal hlt
      have hcylen : st.cy.toNat < st.row.length := by unfold numrows at hlt; omega
      rw [if_neg (by unfold rowAt at hcxle ⊢; omega)]
      refine ⟨by dsimp only; omega, ?_, fun hlt2 => ⟨by dsimp only; omega, ?_⟩,
        fun heq2 => ?_⟩
      · dsimp only [numrows]
        simp only [List.length_set]
        unfold numrows at hlt
        omega
      · dsimp only
        unfold rowAt
        rw [List.getD_eq_getElem?_getD, List.getElem?_set_self (by simpa using hcylen)]
        simp only [Option.getD_some, editorUpdateRow_chars]
        simp only [List.length_append, List.length_cons, List.length_take, List.length_drop]
        unfold rowAt at hcxle
        omega
      · exfalso
        revert heq2
        dsimp only [numrows]
        simp only [List.length_set]
        unfold numrows at hlt
        omega
  · -- editorInsertNewLine
    unfold editorInsertNewLine
    split
    next hcx0 =>
      have hins := editorInsertRow_row st st.cy [] hcy0 hcyle
      refine ⟨?_, ?_, fun hlt => ⟨by dsimp only; omega, by dsimp only; omega⟩, fun heq => rfl⟩
      · dsimp only
        rw [editorInsertRow_cy]
        omega
      · dsimp only
        rw [editorInsertRow_cy]
        simp only [numrows, hins, List.length_append, List.length_cons, List.length_take,
          List.length_drop]
        unfold numrows at hcyle
        omega
    next hcxne =>
      have hlt : st.cy < numrows st := by
        rcases lt_or_eq_of_le hcyle with h | h
        · exact h
        · exact absurd (hvirt h) hcxne
      refine ⟨by dsimp only; omega, ?_,
        fun hlt2 => ⟨by dsimp only; omega, by dsimp only; omega⟩, fun heq => rfl⟩
      · dsimp only [numrows]
        simp only [List.length_set]
        have := editorInsertRow_row st (st.cy + 1)
          ((rowAt st.row st.cy).chars.drop st.cx.toNat) (by omega) (by omega)
        rw [this]
        simp only [List.length_append, List.length_cons, List.length_take, List.length_drop]
        unfold numrows at hlt
        omega
  · -- editorDelChar
    unfold editorDelChar
    split
    next => exact ⟨hcy0, hcyle, hreal, hvirt⟩
    next hne =>
      split
      next => exact ⟨hcy0, hcyle, hreal, hvirt⟩
      next hne2 =>
        have hlt : st.cy < numrows st := lt_of_le_of_ne hcyle hne
        obtain ⟨hcx0, hcxle⟩ := hreal hlt
        dsimp only
        split
        next hcxpos =>
          -- delete the byte left of the cursor
          unfold editorRowDeleteChar
          rw [if_neg (by unfold rowAt at hcxle ⊢; omega)]
          have hcylen : st.cy.toNat < st.row.length := by unfold numrows at hlt; omega
          refine ⟨by dsimp only; omega, ?_, fun hlt2 => ⟨by dsimp only; omega, ?_⟩,
            fun heq2 => ?_⟩
          · dsimp only [numrows]
            simp only [List.length_set]
            unfold numrows at hlt
            omega
          · dsimp only
            unfold rowAt
            rw [List.getD_eq_getElem?_getD, List.getElem?_set_self (by simpa using hcylen)]
            simp only [Option.getD_some, editorUpdateRow_chars]
            simp only [List.length_append, List.length_take, List.length_drop]
            unfold rowAt at hcxle
            omega
          · exfalso
            revert heq2
            dsimp only [numrows]
            simp only [List.length_set]
            unfold numrows at hlt
            omega
        next hcxz =>
          -- join with the previous row
          have hcyz : st.cy ≠ 0 := fun h => hne2 ⟨by omega, h⟩
          unfold editorRowAppendString editorDelRow
          dsimp only
          rw [if_neg (by simp only [numrows, List.length_set]; unfold numrows at hlt; omega)]
          have hcylen : st.cy.toNat < st.row.length := by unfold numrows at hlt; omega
          have hprevlen : (st.cy - 1).toNat < st.row.length := by omega
          have hlenfin : ((st.row.set (st.cy - 1).toNat
              (editorUpdateRow st.syn ((rowAt st.row (st.cy - 1)).chars ++
                (rowAt st.row st.cy).chars))).eraseIdx st.cy.toNat).length + 1
              = st.row.length := by
            rw [List.length_eraseIdx_add_one (by simpa using hcylen), List.length_set]
          refine ⟨by dsimp only; omega, ?_, fun hlt2 => ⟨?_, ?_⟩, fun heq2 => ?_⟩
          · dsimp only [numrows]
            omega
          · dsimp only
            unfold rowAt
            omega
          · dsimp only
            unfold rowAt
            rw [getD_eraseIdx_lt _ _ _ _ (by omega) (by simp only [List.length_set]; omega)]
            rw [List.getD_eq_getElem?_getD (st.row.set (st.cy - 1).toNat _),
              List.getElem?_set_self (by simpa using hprevlen)]
            simp only [Option.getD_some, editorUpdateRow_chars, List.length_append]
            omega
          · exfalso
            revert heq2
            dsimp only [numrows]
            omega
  · -- HOME
    have hred : kpState (editorProcessKeypress st qt env HOME_KEY) st =
        { st with cx := 0 } := rfl
    rw [hred]
    exact ⟨hcy0, hcyle, fun hlt => ⟨le_rfl, Int.natCast_nonneg _⟩, fun heq => rfl⟩
  · -- END
    have hred : kpState (editorProcessKeypress st qt env END_KEY) st =
        (if st.cy < numrows st then
          { st with cx := ((rowAt st.row st.cy).chars.length : Int) }
        else st) := rfl
    rw [hred]
    split
    next hlt =>
      exact ⟨hcy0, hcyle, fun _ => ⟨Int.natCast_nonneg _, le_rfl⟩,
        fun heq => absurd (show st.cy = numrows st from heq) (by omega)⟩
    next hge => exact ⟨hcy0, hcyle, hreal, hvirt⟩
  · -- PAGE_UP
    have hred : kpState (editorProcessKeypress st qt env PAGE_UP) st =
        moveTimes { st with cy := st.rowoff } ARROW_UP st.screenrows.toNat := rfl
    rw [hred]
    obtain ⟨n, hn⟩ : ∃ n, st.screenrows.toNat = n + 1 := ⟨st.screenrows.toNat - 1, by omega⟩
    rw [hn]
    dsimp only [moveTimes]
    refine moveTimes_inv ARROW_UP n _ ?_
    exact editorMoveCursor_inv _ _ (by dsimp only; omega)
      (by dsimp only [numrows]; unfold numrows at hrole; omega) (by dsimp only; omega)
  · -- PAGE_DOWN
    have hred : kpState (editorProcessKeypress st qt env PAGE_DOWN) st =
        moveTimes
          { st with cy := if st.rowoff + st.screenrows - 1 > numrows st then numrows st
              else st.rowoff + st.screenrows - 1 }
          ARROW_DOWN st.screenrows.toNat := rfl
    rw [hred]
    obtain ⟨n, hn⟩ : ∃ n, st.screenrows.toNat = n + 1 := ⟨st.screenrows.toNat - 1, by omega⟩
    rw [hn]
    dsimp only [moveTimes]
    refine moveTimes_inv ARROW_DOWN n _ ?_
    refine editorMoveCursor_inv _ _ ?_ ?_ ?_
    · dsimp only
      split <;> (unfold numrows at *; omega)
    · dsimp only [numrows]
      split <;> (unfold numrows at *; omega)
    · dsimp only
      omega

/-! ### C8: newline then delete round trip -/

theorem getD_append_self {α} (A : List α) (x : α) (B : List α) (d : α) :
    (A ++ x :: B).getD A.length d = x := by
  induction A with
  | nil => rfl
  | cons a A ih => simpa using ih

theorem getD_append_succ_self {α} (A : List α) (x y : α) (B : List α) (d : α) :
    (A ++ x :: y :: B).getD (A.length + 1) d = y := by
  induction A with
  | nil => rfl
  | cons a A ih => simpa using ih

theorem set_append_self {α} (A : List α) (x y : α) (B : List α) :
    (A ++ x :: B).set A.length y = A ++ y :: B := by
  induction A with
  | nil => rfl
  | cons a A ih => simp [ih]

theorem eraseIdx_append_succ_self {α} (A : List α) (x y : α) (B : List α) :
    (A ++ x :: y :: B).eraseIdx (A.length + 1) = A ++ x :: B := by
  induction A with
  | nil => rfl
  | cons a A ih => simpa using ih

theorem getD_append_self_of {α} (A : List α) (x : α) (B : List α) (d : α) (n : Nat)
    (h : n = A.length) : (A ++ x :: B).getD n d = x := by
  subst h
  exact getD_append_self A x B d

theorem set_append_self_of {α} (A : List α) (x y : α) (B : List α) (n : Nat)
    (h : n = A.length) : (A ++ x :: B).set n y = A ++ y :: B := by
  subst h
  exact set_append_self A x y B

/-- A row list decomposes at any in-range index into the prefix, the row
there, and the tail. -/
theorem row_decomp (rows : List Erow) (n : Nat) (h : n < rows.length) :
    rows.take n ++ rows.getD n defaultRow :: rows.drop (n + 1) = rows := by
  conv_rhs => rw [← List.take_append_drop n rows]
  congr 1
  rw [List.getD_eq_getElem _ _ h]
  exact (List.drop_eq_getElem_cons h).symm

theorem length_take_of_lt {α} {l : List α} {n : Nat} (h : n < l.length) :
    (l.take n).length = n := by
  simp [Nat.min_eq_left (le_of_lt h)]

/-- C8. Newline/delete round trip: from any state satisfying the cursor
invariant with the cursor on a real row (cy < numrows), running
editorInsertNewLine and then editorDelChar restores every row's chars and
the cursor coordinates cx, cy to their values before the pair. -/
theorem claim8_newline_delete_roundtrip (st : EState) (hinv : cursorInv st)
    (hlt : st.cy < numrows st) :
    (editorDelChar (editorInsertNewLine st)).row.map (·.chars) = st.row.map (·.chars) ∧
    (editorDelChar (editorInsertNewLine st)).cx = st.cx ∧
    (editorDelChar (editorInsertNewLine st)).cy = st.cy := by
  obtain ⟨hcy0, hcyle, hreal, hvirt⟩ := hinv
  obtain ⟨hcx0, hcxle⟩ := hreal hlt
  have hnlen : st.cy.toNat < st.row.length := by unfold numrows at hlt; omega
  have htknat : (st.row.take st.cy.toNat).length = st.cy.toNat := length_take_of_lt hnlen
  have hdroplen : (st.row.drop (st.cy.toNat + 1)).length = st.row.length - (st.cy.toNat + 1) := by
    simp
  by_cases hcx : st.cx = 0
  · -- column 0: an empty row is inserted above, the join removes it again
    have hstep1 : editorInsertNewLine st =
        { editorInsertRow st st.cy [] with cy := st.cy + 1, cx := 0 } := by
      unfold editorInsertNewLine
      rw [if_pos hcx]
      dsimp only
      rw [editorInsertRow_cy]
    have hrow1 : (editorInsertRow st st.cy []).row =
        st.row.take st.cy.toNat ++ editorUpdateRow st.syn [] ::
          rowAt st.row st.cy :: st.row.drop (st.cy.toNat + 1) := by
      rw [editorInsertRow_row st st.cy [] hcy0 hcyle]
      congr 1
      congr 1
      unfold rowAt
      rw [List.getD_eq_getElem _ _ hnlen]
      exact List.drop_eq_getElem_cons hnlen
    rw [hstep1]
    unfold editorDelChar
    rw [if_neg (by
      dsimp only [numrows]
      rw [hrow1]
      simp only [List.length_append, List.length_cons]
      rw [htknat]
      unfold numrows at hlt
      intro hbad
      omega)]
    rw [if_neg (by dsimp only; intro hbad; omega)]
    dsimp only
    rw [if_neg (by omega)]
    dsimp only [editorRowAppendString, editorDelRow]
    rw [editorInsertRow_syn]
    have hrowAtn1 : rowAt (editorInsertRow st st.cy []).row (st.cy + 1) =
        rowAt st.row st.cy := by
      unfold rowAt
      rw [hrow1]
      have hidx : (st.cy + 1).toNat = (st.row.take st.cy.toNat).length + 1 := by
        rw [htknat]; omega
      rw [hidx, getD_append_succ_self]
      rfl
    have hrowAtn : rowAt (editorInsertRow st st.cy []).row (st.cy + 1 - 1) =
        editorUpdateRow st.syn [] := by
      unfold rowAt
      rw [hrow1]
      have hidx : (st.cy + 1 - 1).toNat = (st.row.take st.cy.toNat).length := by
        rw [htknat]; omega
      rw [hidx, getD_append_self]
    rw [hrowAtn1, hrowAtn]
    have hsetrow : (editorInsertRow st st.cy []).row.set (st.cy + 1 - 1).toNat
        (editorUpdateRow st.syn ((editorUpdateRow st.syn []).chars ++ (rowAt st.row st.cy).chars)) =
        st.row.take st.cy.toNat ++
          editorUpdateRow st.syn ((editorUpdateRow st.syn []).chars ++ (rowAt st.row st.cy).chars) ::
          rowAt st.row st.cy :: st.row.drop (st.cy.toNat + 1) := by
      rw [hrow1]
      have hidx : (st.cy + 1 - 1).toNat = (st.row.take st.cy.toNat).length := by
        rw [htknat]; omega
      rw [hidx, set_append_self]
    rw [hsetrow]
    rw [if_neg (by
      simp only [numrows, List.length_append, List.length_cons]
      rw [htknat]
      unfold numrows at hlt
      intro hbad
      omega)]
    dsimp only
    have hcynat1 : (st.cy + 1).toNat = (st.row.take st.cy.toNat).length + 1 := by
      rw [htknat]; omega
    rw [hcynat1, eraseIdx_append_succ_self]
    refine ⟨?_, by dsimp only [editorUpdateRow]; simp [hcx], by omega⟩
    conv_rhs => rw [← row_decomp st.row st.cy.toNat hnlen]
    simp only [List.map_append, List.map_cons, editorUpdateRow_chars]
    unfold rowAt
    simp [editorUpdateRow]
  · -- mid-row: the line is split and the join glues it back
    have hcxpos : 0 < st.cx := lt_of_le_of_ne hcx0 (Ne.symm hcx)
    have hrlen : st.cx.toNat ≤ (rowAt st.row st.cy).chars.length := by
      unfold rowAt at hcxle ⊢
      omega
    have htake1 : st.row.take (st.cy.toNat + 1) =
        st.row.take st.cy.toNat ++ [rowAt st.row st.cy] := by
      rw [List.take_succ, List.getElem?_eq_getElem hnlen]
      unfold rowAt
      rw [List.getD_eq_getElem _ _ hnlen]
      rfl
    have hcy1nat : (st.cy + 1).toNat = st.cy.toNat + 1 := by omega
    have hrow1 : (editorInsertRow st (st.cy + 1)
        ((rowAt st.row st.cy).chars.drop st.cx.toNat)).row =
        st.row.take st.cy.toNat ++ rowAt st.row st.cy ::
          editorUpdateRow st.syn ((rowAt st.row st.cy).chars.drop st.cx.toNat) ::
          st.row.drop (st.cy.toNat + 1) := by
      rw [editorInsertRow_row st (st.cy + 1) _ (by omega)
        (by unfold numrows at hlt ⊢; omega)]
      rw [hcy1nat, htake1]
      simp
    have hrowAtr : rowAt (editorInsertRow st (st.cy + 1)
        ((rowAt st.row st.cy).chars.drop st.cx.toNat)).row st.cy = rowAt st.row st.cy := by
      rw [rowAt, hrow1]
      exact getD_append_self_of _ _ _ _ _ htknat.symm
    have hstep1 : editorInsertNewLine st =
        { editorInsertRow st (st.cy + 1) ((rowAt st.row st.cy).chars.drop st.cx.toNat) with
          row := (editorInsertRow st (st.cy + 1)
              ((rowAt st.row st.cy).chars.drop st.cx.toNat)).row.set st.cy.toNat
            (editorUpdateRow st.syn ((rowAt st.row st.cy).chars.take st.cx.toNat)),
          cy := st.cy + 1, cx := 0 } := by
      unfold editorInsertNewLine
      rw [if_neg hcx]
      dsimp only
      rw [hrowAtr, editorInsertRow_syn]
    have hsetrow : (editorInsertRow st (st.cy + 1)
        ((rowAt st.row st.cy).chars.drop st.cx.toNat)).row.set st.cy.toNat
          (editorUpdateRow st.syn ((rowAt st.row st.cy).chars.take st.cx.toNat)) =
        st.row.take st.cy.toNat ++
          editorUpdateRow st.syn ((rowAt st.row st.cy).chars.take st.cx.toNat) ::
          editorUpdateRow st.syn ((rowAt st.row st.cy).chars.drop st.cx.toNat) ::
          st.row.drop (st.cy.toNat + 1) := by
      rw [hrow1]
      exact set_append_self_of _ _ _ _ _ htknat.symm
    rw [hstep1, hsetrow]
    unfold editorDelChar
    rw [if_neg (by
      dsimp only [numrows]
      simp only [List.length_append, List.length_cons]
      rw [htknat]
      unfold numrows at hlt
      intro hbad
      omega)]
    rw [if_neg (by dsimp only; intro hbad; omega)]
    dsimp only
    rw [if_neg (by omega)]
    dsimp only [editorRowAppendString, editorDelRow]
    rw [editorInsertRow_syn]
    have hidx1 : (st.cy + 1).toNat = (st.row.take st.cy.toNat).length + 1 := by
      rw [htknat]; omega
    have hidx0 : (st.cy + 1 - 1).toNat = (st.row.take st.cy.toNat).length := by
      rw [htknat]; omega
    have hrowAtn1 : rowAt (st.row.take st.cy.toNat ++
        editorUpdateRow st.syn ((rowAt st.row st.cy).chars.take st.cx.toNat) ::
        editorUpdateRow st.syn ((rowAt st.row st.cy).chars.drop st.cx.toNat) ::
        st.row.drop (st.cy.toNat + 1)) (st.cy + 1) =
        editorUpdateRow st.syn ((rowAt st.row st.cy).chars.drop st.cx.toNat) := by
      unfold rowAt
      rw [hidx1, getD_append_succ_self]
    have hrowAtn0 : rowAt (st.row.take st.cy.toNat ++
        editorUpdateRow st.syn ((rowAt st.row st.cy).chars.take st.cx.toNat) ::
        editorUpdateRow st.syn ((rowAt st.row st.cy).chars.drop st.cx.toNat) ::
        st.row.drop (st.cy.toNat + 1)) (st.cy + 1 - 1) =
        editorUpdateRow st.syn ((rowAt st.row st.cy).chars.take st.cx.toNat) := by
      unfold rowAt
      rw [hidx0, getD_append_self]
    rw [hrowAtn1, hrowAtn0]
    rw [hidx0, set_append_self]
    rw [if_neg (by
      simp only [numrows, List.length_append, List.length_cons]
      rw [htknat]
      unfold numrows at hlt
      intro hbad
      omega)]
    dsimp only
    rw [hidx1, eraseIdx_append_succ_self]
    refine ⟨?_, ?_, by omega⟩
    · conv_rhs => rw [← row_decomp st.row st.cy.toNat hnlen]
      simp only [List.map_append, List.map_cons, editorUpdateRow_chars,
        List.take_append_drop]
      unfold rowAt
      rfl
    · dsimp only [editorUpdateRow]
      simp only [List.length_take]
      omega

/-- The concrete two-row state of the C8 witness, cursor mid-row. -/
def c8st : EState :=
  { cx := 1, cy := 0, rx := 0, rowoff := 0, coloff := 0, screenrows := 10,
    screencols := 40,
    row := [{ chars := [97, 98], render := [97, 98], hl := [0, 0] },
            { chars := [99], render := [99], hl := [0] }],
    dirty := 0, filename := none, statusmsg := "", syn := none }

/-- C8 witness: the round trip at a concrete two-row state with the
cursor inside the first row. -/
theorem claim8_witness :
    (cursorInv c8st ∧ c8st.cy < numrows c8st) ∧
    (editorDelChar (editorInsertNewLine c8st)).row.map (·.chars) = c8st.row.map (·.chars) ∧
    (editorDelChar (editorInsertNewLine c8st)).cx = c8st.cx ∧
    (editorDelChar (editorInsertNewLine c8st)).cy = c8st.cy :=
  ⟨⟨by decide, by decide⟩, claim8_newline_delete_roundtrip c8st (by decide) (by decide)⟩

/-- A concrete one-row state satisfying the amended C1 hypotheses. -/
def c1st : EState :=
  { cx := 2, cy := 0, rx := 0, rowoff := 0, coloff := 0, screenrows := 10,
    screencols := 40, row := [{ chars := [97, 98], render := [97, 98], hl := [0, 0] }],
    dirty := 0, filename := none, statusmsg := "", syn := none }

/-- C1 witness: the amended invariant preservation applied at a concrete
state, for an arrow move and for PAGE_DOWN. -/
theorem claim1_witness :
    (cursorInv c1st ∧ 0 ≤ c1st.rowoff ∧ c1st.rowoff ≤ numrows c1st ∧ 1 ≤ c1st.screenrows) ∧
    cursorInv (editorMoveCursor c1st ARROW_LEFT) ∧
    cursorInv (kpState (editorProcessKeypress c1st 2 env0 PAGE_DOWN) c1st) :=
  ⟨⟨by decide, by decide, by decide, by decide⟩,
   (claim1_cursor_invariant c1st 2 env0 (by decide) (by decide) (by decide) (by decide)).1
     ARROW_LEFT,
   (claim1_cursor_invariant c1st 2 env0 (by decide) (by decide) (by decide)
     (by decide)).2.2.2.2.2.2.2⟩

/-- C2 witness: the preservation theorem applied to a concrete two-row
state whose rows satisfy the invariant. -/
theorem claim2_witness :
    rowsOk [{ chars := [97, 9], render := renderLoop [97, 9] 0,
              hl := editorUpdateSyntax none (renderLoop [97, 9] 0) }] ∧
    rowsOk (editorInsertChar
      { cx := 0, cy := 0, rx := 0, rowoff := 0, coloff := 0, screenrows := 10,
        screencols := 40,
        row := [{ chars := [97, 9], render := renderLoop [97, 9] 0,
                  hl := editorUpdateSyntax none (renderLoop [97, 9] 0) }],
        dirty := 0, filename := none, statusmsg := "", syn := none } 98).row :=
  ⟨by decide,
   ((claim2_hl_render_length.2
      { cx := 0, cy := 0, rx := 0, rowoff := 0, coloff := 0, screenrows := 10,
        screencols := 40,
        row := [{ chars := [97, 9], render := renderLoop [97, 9] 0,
                  hl := editorUpdateSyntax none (renderLoop [97, 9] 0) }],
        dirty := 0, filename := none, statusmsg := "", syn := none }
      (by decide)).2.2.1 98)⟩

/-- The find-session invariant threading editorFindCallback's statics:
highlight arrays keep one byte per render byte, last_match stays inside
[-1, numrows), and when the save slot holds a copy it is the MATCH-free
pre-match hl of the saved line (of that line's render length) while every
other row is MATCH-free. -/
def findInv (st : EState) (fs : FindState) : Prop :=
  rowsOk st.row ∧ -1 ≤ fs.last_match ∧ fs.last_match < numrows st ∧
  match fs.saved_hl with
  | none => noMatch st.row
  | some h =>
    0 ≤ fs.saved_hl_line ∧ fs.saved_hl_line < numrows st ∧
    HL_MATCH ∉ h ∧ h.length = (rowAt st.row fs.saved_hl_line).render.length ∧
    ∀ (i : Nat) (r : Erow), st.row[i]? = some r → i ≠ fs.saved_hl_line.toNat → HL_MATCH ∉ r.hl

theorem memcpyList_full (dst src : List Nat) (n : Nat)
    (hs : src.length = n) (hd : dst.length ≤ n) :
    memcpyList dst src n = src := by
  unfold memcpyList
  rw [List.take_of_length_le (le_of_eq hs), List.drop_eq_nil_of_le hd, List.append_nil]

theorem rowAt_mem (rows : List Erow) (i : Int) (h0 : 0 ≤ i)
    (h1 : i < (rows.length : Int)) : rowAt rows i ∈ rows := by
  have hlt : i.toNat < rows.length := by omega
  rw [rowAt, List.getD_eq_getElem _ _ hlt]
  exact List.getElem_mem _

theorem getD_set_self_lt {α} (l : List α) (n : Nat) (a d : α) (h : n < l.length) :
    (l.set n a).getD n d = a := by
  rw [List.getD_eq_getElem?_getD, List.getElem?_set, if_pos rfl, if_pos h, Option.getD_some]

theorem noMatch_of_index (rows : List Erow)
    (h : ∀ (i : Nat) (r : Erow), rows[i]? = some r → HL_MATCH ∉ r.hl) : noMatch rows := by
  intro r hr
  obtain ⟨i, hi⟩ := List.mem_iff_getElem?.mp hr
  exact h i r hi

theorem findInv_noMatch {st : EState} {fs : FindState}
    (h : findInv st fs) (hsv : fs.saved_hl = none) : noMatch st.row := by
  have h4 := h.2.2.2
  rw [hsv] at h4
  exact h4

/-- One full search of editorFindCallback preserves the session invariant:
starting MATCH-free with the save slot empty, the loop either finds no
match (state unchanged) or saves the hit row's old hl and paints the match
range in it, every other row staying MATCH-free. -/
theorem searchLoop_inv (query : List Nat) (dir : Int)
    (hdir : dir = 1 ∨ dir = -1) :
    ∀ (fuel : Nat) (current : Int) (st : EState) (fs : FindState),
    rowsOk st.row → noMatch st.row → fs.saved_hl = none →
    -1 ≤ fs.last_match → fs.last_match < numrows st →
    -1 ≤ current → current < numrows st → (current = -1 → dir = 1) →
    (fuel : Int) ≤ numrows st →
    findInv (searchLoop query dir fuel current st fs).1
      (searchLoop query dir fuel current st fs).2 := by
  intro fuel
  induction fuel with
  | zero =>
    intro current st fs hok hnm hsv hlm0 hlm1 hc0 hc1 hcd hfuel
    show findInv st fs
    refine ⟨hok, hlm0, hlm1, ?_⟩
    rw [hsv]
    exact hnm
  | succ n ih =>
    intro current st fs hok hnm hsv hlm0 hlm1 hc0 hc1 hcd hfuel
    have hnum1 : (1 : Int) ≤ numrows st := by
      have h1 : ((n + 1 : Nat) : Int) ≤ numrows st := hfuel
      omega
    rw [searchLoop]
    set w : Int := if current + dir = -1 then numrows st - 1
      else if current + dir = numrows st then 0 else current + dir with hw
    have hwb : 0 ≤ w ∧ w < numrows st := by
      rw [hw]
      split
      · omega
      · split <;> omega
    have hwlt : w.toNat < st.row.length := by
      have h2 := hwb.2
      simp only [numrows] at h2
      omega
    have hmem : rowAt st.row w ∈ st.row := rowAt_mem st.row w hwb.1 hwb.2
    cases hfind : strstrIdx (rowAt st.row w).render query with
    | none =>
      exact ih w st fs hok hnm hsv hlm0 hlm1 (by omega) hwb.2 (by omega)
        (by have h1 : ((n + 1 : Nat) : Int) ≤ numrows st := hfuel; omega)
    | some idx =>
      unfold findInv
      dsimp only
      refine ⟨?_, by omega, ?_, by omega, ?_, ?_, ?_, ?_⟩
      · intro r hr
        rcases List.mem_or_eq_of_mem_set hr with hmem2 | heq2
        · exact hok r hmem2
        · subst heq2
          unfold rowOk
          dsimp only
          rw [setRange_length]
          exact hok _ hmem
      · show w < ((st.row.set w.toNat _).length : Int)
        rw [List.length_set]
        omega
      · show w < ((st.row.set w.toNat _).length : Int)
        rw [List.length_set]
        omega
      · exact hnm _ hmem
      · rw [rowAt, rowAt, getD_set_self_lt _ _ _ _ hwlt]
        exact hok _ hmem
      · intro i r hi hine
        rw [List.getElem?_set, if_neg (fun hx => hine hx.symm)] at hi
        exact hnm r (List.getElem?_mem hi)

/-- The restore step of editorFindCallback runs first and undoes the MATCH
painting: afterwards every row is MATCH-free again, the save slot is
empty, and last_match and the row count are unchanged. -/
theorem findRestore_inv (st : EState) (fs : FindState) (h : findInv st fs) :
    rowsOk (findRestore st fs).1.row ∧ noMatch (findRestore st fs).1.row ∧
    (findRestore st fs).2.saved_hl = none ∧
    (findRestore st fs).2.last_match = fs.last_match ∧
    (findRestore st fs).1.row.length = st.row.length := by
  obtain ⟨hok, hlm0, hlm1, hsaved⟩ := h
  cases hsv : fs.saved_hl with
  | none =>
    rw [hsv] at hsaved
    unfold findRestore
    rw [hsv]
    exact ⟨hok, hsaved, hsv, rfl, rfl⟩
  | some hh =>
    rw [hsv] at hsaved
    obtain ⟨hs0, hs1, hsnm, hslen, hsoth⟩ := hsaved
    have hlt : fs.saved_hl_line.toNat < st.row.length := by
      simp only [numrows] at hs1
      omega
    have hrowmem : st.row.getD fs.saved_hl_line.toNat defaultRow ∈ st.row := by
      rw [List.getD_eq_getElem _ _ hlt]
      exact List.getElem_mem _
    have hcpy : memcpyList (st.row.getD fs.saved_hl_line.toNat defaultRow).hl hh
        (st.row.getD fs.saved_hl_line.toNat defaultRow).render.length = hh := by
      apply memcpyList_full
      · exact hslen
      · exact le_of_eq (hok _ hrowmem)
    unfold findRestore
    rw [hsv]
    dsimp only
    rw [hcpy]
    refine ⟨?_, ?_, rfl, rfl, List.length_set _ _ _⟩
    · intro r hr
      rcases List.mem_or_eq_of_mem_set hr with hmem2 | heq2
      · exact hok r hmem2
      · subst heq2
        unfold rowOk
        dsimp only
        exact hslen
    · apply noMatch_of_index
      intro i r hi
      rw [List.getElem?_set] at hi
      by_cases hil : fs.saved_hl_line.toNat = i
      · rw [if_pos hil, if_pos (hil ▸ hlt)] at hi
        injection hi with hi2
        subst hi2
        exact hsnm
      · rw [if_neg hil] at hi
        exact hsoth i r hi (fun hx => hil hx.symm)

/-- The key dispatch and search of editorFindCallback preserve the
invariant, and a terminating key (Enter or Escape) leaves the save slot
empty. -/
theorem findSearch_inv (st : EState) (fs : FindState) (q : List Nat) (k : Nat)
    (hok : rowsOk st.row) (hnm : noMatch st.row) (hsv : fs.saved_hl = none)
    (hlm0 : -1 ≤ fs.last_match) (hlm1 : fs.last_match < numrows st) :
    findInv (findSearch st fs q k).1 (findSearch st fs q k).2 ∧
    ((k = 13 ∨ k = 27) → (findSearch st fs q k).2.saved_hl = none) := by
  unfold findSearch
  by_cases hk : k = 13 ∨ k = 27
  · rw [if_pos hk]
    refine ⟨⟨hok, le_refl _, ?_, ?_⟩, fun _ => hsv⟩
    · show (-1 : Int) < numrows st
      simp only [numrows]
      omega
    · dsimp only
      rw [hsv]
      exact hnm
  · rw [if_neg hk]
    refine ⟨?_, fun hkk => absurd hkk hk⟩
    dsimp only
    by_cases ha : k = ARROW_RIGHT ∨ k = ARROW_DOWN
    · rw [if_pos ha]
      dsimp only
      by_cases hlm : fs.last_match = -1
      · rw [if_pos hlm]
        exact searchLoop_inv q _ (Or.inl rfl) _ _ st _ hok hnm hsv hlm0 hlm1 hlm0 hlm1
          (fun _ => rfl) (le_of_eq rfl)
      · rw [if_neg hlm]
        exact searchLoop_inv q _ (Or.inl rfl) _ _ st _ hok hnm hsv hlm0 hlm1 hlm0 hlm1
          (fun _ => rfl) (le_of_eq rfl)
    · rw [if_neg ha]
      by_cases hb : k = ARROW_LEFT ∨ k = ARROW_UP
      · rw [if_pos hb]
        dsimp only
        by_cases hlm : fs.last_match = -1
        · rw [if_pos hlm]
          exact searchLoop_inv q _ (Or.inl rfl) _ _ st _ hok hnm hsv hlm0 hlm1 hlm0 hlm1
            (fun _ => rfl) (le_of_eq rfl)
        · rw [if_neg hlm]
          exact searchLoop_inv q _ (Or.inr rfl) _ _ st _ hok hnm hsv hlm0 hlm1 hlm0 hlm1
            (fun hx => absurd hx hlm) (le_of_eq rfl)
      · rw [if_neg hb]
        dsimp only
        rw [if_pos rfl]
        exact searchLoop_inv q _ (Or.inl rfl) _ _ st _ hok hnm hsv (le_refl _)
          (by show (-1 : Int) < numrows st; simp only [numrows]; omega) (le_refl _)
          (by show (-1 : Int) < numrows st; simp only [numrows]; omega)
          (fun _ => rfl) (le_of_eq rfl)

/-- editorFindCallback preserves the find-session invariant, and a
terminating key (Enter or Escape) leaves the save slot empty. -/
theorem editorFindCallback_inv (st : EState) (fs : FindState) (q : List Nat)
    (k : Nat) (h : findInv st fs) :
    findInv (editorFindCallback st fs q k).1 (editorFindCallback st fs q k).2 ∧
    ((k = 13 ∨ k = 27) → (editorFindCallback st fs q k).2.saved_hl = none) := by
  obtain ⟨hok, hnm, hsv, hlm, hlen⟩ := findRestore_inv st fs h
  have hlm1 : (findRestore st fs).2.last_match < numrows (findRestore st fs).1 := by
    rw [hlm]
    have h2 := h.2.2.1
    simp only [numrows] at h2 ⊢
    rw [hlen]
    exact h2
  have hlm0 : -1 ≤ (findRestore st fs).2.last_match := by
    rw [hlm]
    exact h.2.1
  exact findSearch_inv (findRestore st fs).1 (findRestore st fs).2 q k hok hnm hsv hlm0 hlm1

theorem editorSetStatusMessage_row (st : EState) (m : String) :
    (editorSetStatusMessage st m).row = st.row := by
  simp [editorSetStatusMessage]

/-- The invariant only concerns the row list, so it transports along
states with the same rows (screen refreshes, status messages, scrolling). -/
theorem findInv_row_congr {st st1 : EState} (fs : FindState)
    (hrow : st1.row = st.row) (h : findInv st fs) : findInv st1 fs := by
  unfold findInv numrows at h ⊢
  rw [hrow]
  exact h

/-- Every editorPrompt iteration with the find callback keeps the session
invariant, and when the prompt returns (Enter or Escape was the last key
given to the callback) the save slot is empty. -/
theorem promptLoop_find_inv (p : String) :
    ∀ (keys : List Nat) (st : EState) (fs : FindState) (buf : List Nat),
    findInv st fs →
    ∀ (st1 : EState) (fs1 : FindState) (res : Option (List Nat)),
      promptLoop p (some editorFindCallback) keys st fs buf = some (st1, fs1, res) →
      findInv st1 fs1 ∧ fs1.saved_hl = none := by
  intro keys
  induction keys with
  | nil =>
    intro st fs buf h st1 fs1 res heq
    rw [promptLoop] at heq
    exact Option.noConfusion heq
  | cons c keys ih =>
    intro st fs buf h st1 fs1 res heq
    rw [promptLoop] at heq
    have h1 : findInv (promptRefresh st p) fs := findInv_row_congr fs rfl h
    split at heq
    next hdel =>
      exact ih _ _ _ (editorFindCallback_inv (promptRefresh st p) fs
        (if buf.length ≠ 0 then buf.dropLast else buf) c h1).1 st1 fs1 res heq
    next hdel =>
      split at heq
      next hesc =>
        simp only [Option.some.injEq, Prod.mk.injEq] at heq
        obtain ⟨he1, he2, he3⟩ := heq
        subst he1
        subst he2
        have h2 : findInv (editorSetStatusMessage (promptRefresh st p) ("")) fs :=
          findInv_row_congr fs (editorSetStatusMessage_row _ _) h1
        have hcb := editorFindCallback_inv
          (editorSetStatusMessage (promptRefresh st p) ("")) fs buf c h2
        exact ⟨hcb.1, hcb.2 (Or.inr hesc)⟩
      next hesc =>
        split at heq
        next henter =>
          split at heq
          next hbuf =>
            simp only [Option.some.injEq, Prod.mk.injEq] at heq
            obtain ⟨he1, he2, he3⟩ := heq
            subst he1
            subst he2
            have h2 : findInv (editorSetStatusMessage (promptRefresh st p) ("")) fs :=
              findInv_row_congr fs (editorSetStatusMessage_row _ _) h1
            have hcb := editorFindCallback_inv
              (editorSetStatusMessage (promptRefresh st p) ("")) fs buf c h2
            exact ⟨hcb.1, hcb.2 (Or.inl henter)⟩
          next hbuf =>
            exact ih _ _ _ (editorFindCallback_inv (promptRefresh st p) fs buf c h1).1
              st1 fs1 res heq
        next henter =>
          split at heq
          next hprint =>
            exact ih _ _ _ (editorFindCallback_inv (promptRefresh st p) fs
              (buf ++ [c]) c h1).1 st1 fs1 res heq
          next hprint =>
            exact ih _ _ _ (editorFindCallback_inv (promptRefresh st p) fs buf c h1).1
              st1 fs1 res heq

/-- C9. Find cancellation atomicity: editorFind saves cx, cy, coloff and
rowoff before prompting, and when the prompt is cancelled with ESCAPE
(result None) all four come back to their saved values; moreover, in a
state whose highlight arrays match their render lengths and hold no
HL_MATCH byte, whenever the session ends (Enter or Escape) no HL_MATCH
byte remains in any row's hl: the callback restored the saved hl before
returning. -/
theorem claim9_find_restore (st : EState) (keys : List Nat) (st1 : EState)
    (res : Option (List Nat)) (hok : rowsOk st.row) (hnm : noMatch st.row)
    (heq : editorFind st keys = some (st1, res)) :
    noMatch st1.row ∧
    (res = none → st1.cx = st.cx ∧ st1.cy = st.cy ∧
      st1.coloff = st.coloff ∧ st1.rowoff = st.rowoff) := by
  have hinv : findInv st findStateInit := by
    refine ⟨hok, le_refl _, ?_, ?_⟩
    · show (-1 : Int) < numrows st
      simp only [numrows]
      omega
    · exact hnm
  unfold editorFind at heq
  dsimp only at heq
  cases hpl : promptLoop ("Search: (ESC/Arrows/Enter)") (some editorFindCallback)
      keys st findStateInit [] with
  | none =>
    rw [hpl] at heq
    exact Option.noConfusion heq
  | some r =>
    obtain ⟨st2, fs2, res2⟩ := r
    rw [hpl] at heq
    have hmain := promptLoop_find_inv ("Search: (ESC/Arrows/Enter)") keys st
      findStateInit [] hinv st2 fs2 res2 hpl
    cases res2 with
    | some qq =>
      dsimp only at heq
      simp only [Option.some.injEq, Prod.mk.injEq] at heq
      obtain ⟨he1, he2⟩ := heq
      subst he1
      subst he2
      exact ⟨findInv_noMatch hmain.1 hmain.2, fun hq => Option.noConfusion hq⟩
    | none =>
      dsimp only at heq
      simp only [Option.some.injEq, Prod.mk.injEq] at heq
      obtain ⟨he1, he2⟩ := heq
      subst he1
      subst he2
      exact ⟨findInv_noMatch hmain.1 hmain.2, fun _ => ⟨rfl, rfl, rfl, rfl⟩⟩

/-- A concrete MATCH-free one-row state for a find session. -/
def c9st : EState :=
  { cx := 1, cy := 0, rx := 0, rowoff := 0, coloff := 0, screenrows := 10,
    screencols := 40, row := [{ chars := [97, 98], render := [97, 98], hl := [0, 0] }],
    dirty := 0, filename := none, statusmsg := "", syn := none }

/-- The state and query a session typing the byte a and cancelling with
ESCAPE ends in. -/
def c9res1 : EState := ((editorFind c9st [97, 27]).getD (c9st, none)).1

def c9res2 : Option (List Nat) := ((editorFind c9st [97, 27]).getD (c9st, none)).2

set_option maxRecDepth 100000 in
/-- C9 witness: the session typing a and cancelling with ESCAPE at the
concrete one-row state: the search moved the cursor and painted the match,
and the cancellation restored cx, cy, coloff and rowoff and left every row
MATCH-free. -/
theorem claim9_witness :
    rowsOk c9st.row ∧ noMatch c9st.row ∧
    editorFind c9st [97, 27] = some (c9res1, c9res2) ∧
    noMatch c9res1.row ∧
    (c9res2 = none → c9res1.cx = c9st.cx ∧ c9res1.cy = c9st.cy ∧
      c9res1.coloff = c9st.coloff ∧ c9res1.rowoff = c9st.rowoff) :=
  ⟨by decide, by decide, by decide,
   claim9_find_restore c9st [97, 27] c9res1 c9res2 (by decide) (by decide) (by decide)⟩

end Kilo
